import Mathlib

set_option maxRecDepth 100000

/-!
Shallow embedding of the coordination core of `jplanetx/life-coach-ai`
(`src/core/orchestrator.py` and `src/core/base_agent.py`), together with
theorems checking the specification's claims about it.

Modelling conventions:
* Python dicts are insertion-ordered association lists (`List (κ × α)`);
  all dict operations below preserve the insertion order and key
  uniqueness exactly as CPython does.
* Python sets are modelled as insertion-ordered duplicate-free lists
  (`setAdd`/`setUpdate`).  CPython's set iteration order is unspecified;
  every theorem below depends only on set membership, never on the
  iteration order of a set.
* Python floats: every constant in the confidence/metrics code is a
  multiple of 0.1, so confidences, thresholds and metrics are embedded as
  integers measured in tenths (0.5 → 5, 1.0 → 10, 0.7 → 7, …); the only
  true divisions in the source (`weekly / 7`, `monthly / 30`,
  `confidence_sum / len`, `total_priority / count`) are kept as formal
  unreduced fractions `Value.vFrac`.
* `datetime.now()` and `datetime.fromisoformat` are abstracted into an
  explicit `Clock` parameter (wall-clock oracle); no claim below depends
  on actual time values.
* Python exceptions are `Except String`; a raised exception carries its
  message.
-/

/-- Embedded Python value: `None`, strings, ints, fractions (stand-ins for
the few float divisions in the source), lists, and string-keyed dicts. -/
inductive Value where
  | vNone : Value
  | vStr : String → Value
  | vInt : Int → Value
  | vFrac : Int → Int → Value
  | vList : List Value → Value
  | vDict : List (String × Value) → Value

mutual

/-- Structural boolean equality on embedded values (Python `==`). -/
def beqV : Value → Value → Bool
  | .vNone, .vNone => true
  | .vStr a, .vStr b => a == b
  | .vInt a, .vInt b => a == b
  | .vFrac a b, .vFrac c d => a == c && b == d
  | .vList a, .vList b => beqLV a b
  | .vDict a, .vDict b => beqDV a b
  | _, _ => false

/-- Boolean equality on lists of embedded values. -/
def beqLV : List Value → List Value → Bool
  | [], [] => true
  | a :: as, b :: bs => beqV a b && beqLV as bs
  | _, _ => false

/-- Boolean equality on embedded dict entry lists. -/
def beqDV : List (String × Value) → List (String × Value) → Bool
  | [], [] => true
  | (k, a) :: as, (l, b) :: bs => k == l && beqV a b && beqDV as bs
  | _, _ => false

end

mutual

def beqV_iff : ∀ a b : Value, beqV a b = true ↔ a = b
  | .vNone, b => by cases b <;> simp [beqV]
  | .vStr s, b => by cases b <;> simp [beqV]
  | .vInt n, b => by cases b <;> simp [beqV]
  | .vFrac n d, b => by cases b <;> simp [beqV]
  | .vList l, b => by
      cases b <;> simp [beqV]
      exact beqLV_iff l _
  | .vDict d, b => by
      cases b <;> simp [beqV]
      exact beqDV_iff d _

def beqLV_iff : ∀ a b : List Value, beqLV a b = true ↔ a = b
  | [], b => by cases b <;> simp [beqLV]
  | x :: xs, b => by
      cases b <;> simp [beqLV]
      rw [beqV_iff, beqLV_iff]

def beqDV_iff : ∀ a b : List (String × Value), beqDV a b = true ↔ a = b
  | [], b => by cases b <;> simp [beqDV]
  | (k, v) :: xs, b => by
      cases b with
      | nil => simp [beqDV]
      | cons y ys =>
        obtain ⟨l, w⟩ := y
        simp [beqDV]
        rw [beqV_iff, beqDV_iff]

end

instance : DecidableEq Value := fun a b => decidable_of_iff _ (beqV_iff a b)

/-- Embedded Python dict (string keys, insertion-ordered). -/
abbrev Ctx := List (String × Value)

/-- Dict read, `d.get(k)` / `d[k]` hit: first (and only) binding of `k`. -/
def alistGet {κ α : Type} [DecidableEq κ] (d : List (κ × α)) (k : κ) : Option α :=
  match d with
  | [] => none
  | (k', v) :: rest => if k' = k then some v else alistGet rest k

/-- Dict write, `d[k] = v`: rebinds `k` in place if present, else appends
(CPython insertion-order semantics). -/
def alistSet {κ α : Type} [DecidableEq κ] (d : List (κ × α)) (k : κ) (v : α) :
    List (κ × α) :=
  match d with
  | [] => [(k, v)]
  | (k', v') :: rest => if k' = k then (k, v) :: rest else (k', v') :: alistSet rest k v

/-- Python `set.add` on an insertion-ordered duplicate-free list. -/
def setAdd {α : Type} [DecidableEq α] (l : List α) (x : α) : List α :=
  if x ∈ l then l else l ++ [x]

/-- Python `set.update` (add every element of `xs`). -/
def setUpdate {α : Type} [DecidableEq α] (l : List α) (xs : List α) : List α :=
  xs.foldl setAdd l

/-- Read a key out of an embedded value if it is a dict (`x.get(k)`). -/
def dget (v : Value) (k : String) : Option Value :=
  match v with
  | .vDict d => alistGet d k
  | _ => none

/-- Read a key defaulting to the empty list (`x.get(k, [])`), extracting
the elements when the stored value is a list. -/
def dgetList (v : Value) (k : String) : List Value :=
  match dget v k with
  | some (.vList l) => l
  | _ => []

/-- Numeric view of a value where the source compares or sums numbers
(`.get("priority", 0)`-style reads; non-numeric payloads count as 0). -/
def numOf (v : Value) : Int :=
  match v with
  | .vInt n => n
  | _ => 0

/-! String helpers, modelling the Python `str` operations the source uses.
All of them work on `List Char` so that every proof obligation reduces in
the kernel. -/

/-- Whitespace in the sense of Python `str.split()` (no arguments). -/
def isWsCh (c : Char) : Bool :=
  c == ' ' || c == '\t' || c == '\n' || c == '\r' || c == '\x0b' || c == '\x0c'

/-- Count of maximal non-whitespace runs: `len(s.split())`. -/
def countRuns : List Char → Bool → Nat
  | [], _ => 0
  | c :: rest, inWord =>
      if isWsCh c then countRuns rest false
      else (if inWord then 0 else 1) + countRuns rest true

/-- Python `len(response.split())`. -/
def wordCount (s : String) : Nat := countRuns s.data false

/-- Does `hay` start with `needle`? -/
def leadMatch : List Char → List Char → Bool
  | [], _ => true
  | _ :: _, [] => false
  | a :: as, b :: bs => a == b && leadMatch as bs

/-- Python substring test `needle in hay`. -/
def containsSub (hay needle : List Char) : Bool :=
  match hay with
  | [] => needle.isEmpty
  | _ :: rest => leadMatch needle hay || containsSub rest needle

/-- ASCII lower-casing of one character (Python `str.lower` restricted to
the ASCII strings this code base manipulates). -/
def lowerCh (c : Char) : Char :=
  if 'A' ≤ c && c ≤ 'Z' then Char.ofNat (c.toNat + 32) else c

/-- Python `s.lower()` over the characters. -/
def lowerStr (l : List Char) : List Char := l.map lowerCh

/-- ASCII digit test (`char.isdigit()` on the ASCII responses in scope). -/
def isDigitCh (c : Char) : Bool := '0' ≤ c && c ≤ '9'

/-- The apostrophe character used by Python `repr` for string quoting. -/
def quoteCh : Char := Char.ofNat 39

/-- Opening brace of a Python dict repr. -/
def lbraceCh : Char := Char.ofNat 123

/-- Closing brace of a Python dict repr. -/
def rbraceCh : Char := Char.ofNat 125

/-- The three-character mojibake bullet literal that appears in
`base_agent.py` (bytes `C3 A2 E2 82 AC C2 A2`, i.e. the characters
U+00E2, U+20AC, U+00A2). -/
def bulletMoji : List Char := [Char.ofNat 0xE2, Char.ofNat 0x20AC, Char.ofNat 0xA2]

mutual

/-- Python `repr` of an embedded value (as used by `str(context)` on
dicts).  String escaping inside quotes is not modelled; `vFrac` (a float
in the source) is shown as `num/den`, which like a float repr contains no
letters, so keyword scans over the repr are unaffected. -/
def reprV : Value → List Char
  | .vNone => "None".data
  | .vStr s => quoteCh :: (s.data ++ [quoteCh])
  | .vInt n => (toString n).data
  | .vFrac n d => (toString n).data ++ '/' :: (toString d).data
  | .vList l => '[' :: (reprLV l ++ [']'])
  | .vDict d => lbraceCh :: (reprDV d ++ [rbraceCh])

/-- Comma-separated reprs of list elements. -/
def reprLV : List Value → List Char
  | [] => []
  | [x] => reprV x
  | x :: rest => reprV x ++ ',' :: ' ' :: reprLV rest

/-- Comma-separated `'key': value` reprs of dict entries. -/
def reprDV : List (String × Value) → List Char
  | [] => []
  | [(k, v)] => quoteCh :: (k.data ++ quoteCh :: ':' :: ' ' :: reprV v)
  | (k, v) :: rest =>
      quoteCh :: (k.data ++ quoteCh :: ':' :: ' ' :: reprV v) ++ ',' :: ' ' :: reprDV rest

end

/-- Python `str()` of an embedded value (f-string interpolation): the raw
characters for strings, the `repr` otherwise. -/
def strV (v : Value) : List Char :=
  match v with
  | .vStr s => s.data
  | _ => reprV v

/-- Python `str()` as a `String`. -/
def strVS (v : Value) : String := String.mk (strV v)

/-- Lexicographic (code-point) order on strings, Python `<`/`sorted`. -/
def strLeB : List Char → List Char → Bool
  | [], _ => true
  | _ :: _, [] => false
  | a :: as, b :: bs => if a = b then strLeB as bs else decide (a < b)

/-- Python `"sep".join(parts)`. -/
def joinSep (sep : String) : List String → String
  | [] => ""
  | [p] => p
  | p :: rest => p ++ sep ++ joinSep sep rest

/-! The `BaseAgent` data and its confidence heuristic
(`src/core/base_agent.py`). -/

/-- One secondary worker's scored response
(the `{"response": …, "confidence": …}` dicts built by
`_gather_agent_responses`).  Confidence is in tenths. -/
structure AgentResp where
  response : String
  confidence : Int
  deriving DecidableEq

/-- `BaseAgent._calculate_confidence`, in tenths of the source's float
units: 0 for a falsy (empty) response, else base 5 (0.5), +1 (0.1) for
word count > 50, +2 (0.2) for structural punctuation (`":"`, `"-"` or the
mojibake bullet as substrings), +2 (0.2) for any digit, capped at 10
(1.0). -/
def calculate_confidence (response : String) : Int :=
  if response = "" then 0
  else
    let word_count := wordCount response
    let has_structure :=
      containsSub response.data ":".data || containsSub response.data "-".data ||
        containsSub response.data bulletMoji
    let has_metrics := response.data.any isDigitCh
    let confidence : Int :=
      5 + (if word_count > 50 then 1 else 0) + (if has_structure then 2 else 0) +
        (if has_metrics then 2 else 0)
    min confidence 10

/-- A registered agent as the orchestrator sees it: identity, declared
expertise domains, confidence threshold (tenths; `BaseAgent` sets 7),
knowledge base, learning history, and the `process_input` behaviour
(asynchrony is irrelevant to the claims; a raising call is `.error`). -/
structure Agent where
  agent_id : String
  name : String
  expertise_domains : List String
  confidence_threshold : Int
  knowledge_base : Ctx
  learning_history : List Ctx
  process : String → Ctx → Except String String

/-- One record of `self.context_history`
(built by `_update_context_history`). -/
structure HistRecord where
  timestamp : String
  context : Ctx
  response : String
  topics : List Value
  deriving DecidableEq

/-- The `_calculate_success_metrics` result (tenths). -/
structure SuccessMetrics where
  confidence : Int
  relevance : Int
  actionability : Int
  deriving DecidableEq

/-- The fields `_record_decision_outcome` attaches to a decision point. -/
structure DecisionOutcome where
  response : String
  outcome_timestamp : String
  success_metrics : SuccessMetrics
  deriving DecidableEq

/-- One record of `self.decision_history`.  `outcome = none` is the state
right after `_create_decision_point`; `_record_decision_outcome` fills
it. -/
structure DecisionPoint where
  timestamp : String
  user_input : String
  primary_agent : String
  initial_context : Option Ctx
  decision_factors : Ctx
  outcome : Option DecisionOutcome
  deriving DecidableEq

/-- The mutable state of one `AgentOrchestrator` instance (the fields the
coordination logic reads or writes; `orchestration_rules` is only loaded
and never consulted, `active_sessions` is never used). -/
structure OrchState where
  agents : List (String × Agent)
  interaction_patterns : List Ctx
  domain_expertise_map : List (String × List String)
  context_history : List HistRecord
  decision_history : List DecisionPoint

/-- Wall-clock oracle abstracting `datetime`: current hour/weekday, the
current `isoformat()` string, and elapsed whole days since a stored
isoformat timestamp (`(datetime.now() - fromisoformat(ts)).days`). -/
structure Clock where
  hour : Int
  weekday : Int
  nowIso : String
  daysSince : String → Int

/-! ### Worker registry (`register_agent`, `_update_expertise_map`, `get_agent`) -/

/-- `_update_expertise_map`: for each declared domain, create the index
entry if missing and add the agent's ID to its owner set. -/
def update_expertise_map (st : OrchState) (agent : Agent) : OrchState :=
  { st with
    domain_expertise_map :=
      agent.expertise_domains.foldl
        (fun m domain =>
          alistSet m domain (setAdd ((alistGet m domain).getD []) agent.agent_id))
        st.domain_expertise_map }

/-- `register_agent`: `self.agents[agent.agent_id] = agent` followed by the
expertise-map update (note: an existing binding of the same ID is
rebound). -/
def register_agent (st : OrchState) (agent : Agent) : OrchState :=
  update_expertise_map { st with agents := alistSet st.agents agent.agent_id agent } agent

/-- `get_agent`. -/
def get_agent (st : OrchState) (agent_id : String) : Option Agent :=
  alistGet st.agents agent_id

/-! ### History-derived digests (`_identify_common_topics`,
`_analyze_interaction_trends`, `_analyze_success_patterns`, …).
The `self.context_history` / `self.decision_history` fields are passed
explicitly. -/

/-- One step of building `topic_frequency`:
`topic_frequency[topic] = topic_frequency.get(topic, 0) + 1`. -/
def bumpTopic (acc : List (Value × Nat)) (t : Value) : List (Value × Nat) :=
  alistSet acc t ((alistGet acc t).getD 0 + 1)

/-- The `topic_frequency` dict of `_identify_common_topics`: insertion
order of the keys is first-seen order of the topics. -/
def topicFreqs (history : List HistRecord) : List (Value × Nat) :=
  history.foldl (fun acc r => r.topics.foldl bumpTopic acc) []

/-- Sort order of `sorted(keys, key=lambda x: topic_frequency[x],
reverse=True)`: stable descending by count. -/
def rTopicCount (p q : Value × Nat) : Prop := q.2 ≤ p.2

instance : DecidableRel rTopicCount := fun p q => inferInstanceAs (Decidable (q.2 ≤ p.2))

instance : IsTotal (Value × Nat) rTopicCount := ⟨fun p q => Nat.le_total q.2 p.2⟩

instance : IsTrans (Value × Nat) rTopicCount := ⟨fun _ _ _ h1 h2 => Nat.le_trans h2 h1⟩

/-- `_identify_common_topics`: top-5 topic keys by descending frequency.
Python sorts the (unique) dict keys with the count as sort key; sorting
the `(key, count)` pairs with the same stable algorithm and projecting to
the keys is the same list. -/
def identify_common_topics (history : List HistRecord) : List Value :=
  if history.isEmpty then []
  else ((List.insertionSort rTopicCount (topicFreqs history)).map Prod.fst).take 5

/-- `_was_successful_interaction` (thresholds 0.7 / 0.6 / 0.5, in tenths):
an unrecorded outcome reads `{}` whose `.get(_, 0)` values fail the first
threshold. -/
def was_successful_interaction (d : DecisionPoint) : Bool :=
  match d.outcome with
  | none => false
  | some o =>
      if o.success_metrics.confidence < 7 then false
      else if o.success_metrics.relevance < 6 then false
      else if o.success_metrics.actionability < 5 then false
      else true

/-- The `initial_context` stored in a decision point:
a dict, or Python `None` when the caller passed no context. -/
def optCtxV : Option Ctx → Value
  | some c => .vDict c
  | none => .vNone

/-- The `success_metrics` dict attached to a decision point
(`decision.get("success_metrics", {})`). -/
def metricsValue (d : DecisionPoint) : Value :=
  match d.outcome with
  | some o =>
      .vDict [("confidence", .vInt o.success_metrics.confidence),
              ("relevance", .vInt o.success_metrics.relevance),
              ("actionability", .vInt o.success_metrics.actionability)]
  | none => .vDict []

/-- `_calculate_interaction_frequency` (divisions kept as formal
fractions). -/
def calculate_interaction_frequency (clock : Clock) (st : OrchState) : Ctx :=
  if st.context_history.isEmpty then
    [("daily", .vInt 0), ("weekly", .vInt 0), ("monthly", .vInt 0)]
  else
    let daily : Int := st.context_history.countP (fun r => decide (clock.daysSince r.timestamp < 1))
    let weekly : Int := st.context_history.countP (fun r => decide (clock.daysSince r.timestamp < 7))
    let monthly : Int := st.context_history.countP (fun r => decide (clock.daysSince r.timestamp < 30))
    [("daily", .vInt daily),
     ("weekly", if weekly > 0 then .vFrac weekly 7 else .vInt 0),
     ("monthly", if monthly > 0 then .vFrac monthly 30 else .vInt 0)]

/-- `_identify_successful_patterns`. -/
def identify_successful_patterns (st : OrchState) : List Value :=
  (st.decision_history.filter was_successful_interaction).map fun d =>
    .vDict [("context", optCtxV d.initial_context),
            ("response_type", .vNone),
            ("success_metrics", metricsValue d)]

/-- Ascending order of `sorted(goals.items())` (string keys are unique, so
Python's tuple comparison never reaches the values). -/
def rGoalKey (a b : String × Value) : Prop := strLeB a.1.data b.1.data = true

instance : DecidableRel rGoalKey := fun a b =>
  inferInstanceAs (Decidable (strLeB a.1.data b.1.data = true))

/-- `_generate_context_key`. -/
def generate_context_key (context : Ctx) : String :=
  let e1 : List String :=
    match alistGet context "industry" with
    | some v => ["industry:" ++ strVS v]
    | none => []
  let e2 : List String :=
    match alistGet context "career_goals" with
    | some (.vDict goals) =>
        (List.insertionSort rGoalKey goals).map (fun kv => "goal:" ++ kv.1 ++ ":" ++ strVS kv.2)
    | _ => []
  joinSep "|" (e1 ++ e2)

/-- One accumulated `context_patterns[key]` group of
`_identify_common_contexts` (its `success_rate` stays 0). -/
structure CtxGroup where
  count : Nat
  context : Ctx
  responses : List String
  deriving DecidableEq

/-- Sort order of `sorted(values, key=lambda x: x["count"], reverse=True)`
over context groups. -/
def rCtxGroup (a b : String × CtxGroup) : Prop := b.2.count ≤ a.2.count

instance : DecidableRel rCtxGroup := fun a b => inferInstanceAs (Decidable (b.2.count ≤ a.2.count))

/-- `_identify_common_contexts`. -/
def identify_common_contexts (st : OrchState) : List Value :=
  let groups : List (String × CtxGroup) :=
    st.context_history.foldl
      (fun acc entry =>
        let key := generate_context_key entry.context
        let g := (alistGet acc key).getD ⟨0, entry.context, []⟩
        alistSet acc key ⟨g.count + 1, g.context, g.responses ++ [entry.response]⟩)
      []
  ((List.insertionSort rCtxGroup groups).map fun g =>
    Value.vDict [("count", .vInt (g.2.count : Int)),
                 ("context", .vDict g.2.context),
                 ("success_rate", .vInt 0),
                 ("responses", .vList (g.2.responses.map .vStr))]).take 5

/-- `_analyze_interaction_trends`. -/
def analyze_interaction_trends (clock : Clock) (st : OrchState) : Ctx :=
  if st.context_history.isEmpty then []
  else
    [("frequency", .vDict (calculate_interaction_frequency clock st)),
     ("successful_patterns", .vList (identify_successful_patterns st)),
     ("common_contexts", .vList (identify_common_contexts st))]

/-- `_analyze_success_patterns`. -/
def analyze_success_patterns (st : OrchState) : List Value :=
  (st.decision_history.filter was_successful_interaction).map fun d =>
    .vDict [("context", optCtxV d.initial_context),
            ("agents_involved", .vList []),
            ("outcome", .vStr "success"),
            ("confidence", .vInt 0)]

/-- `_analyze_global_patterns`. -/
def analyze_global_patterns (clock : Clock) (st : OrchState) : Ctx :=
  if st.context_history.isEmpty then []
  else
    [("common_topics", .vList (identify_common_topics st.context_history)),
     ("interaction_trends", .vDict (analyze_interaction_trends clock st)),
     ("success_patterns", .vList (analyze_success_patterns st))]

/-! ### Cross-domain insights (`_generate_cross_domain_insights` and the
summarisation helpers it calls). -/

/-- `domain_data` accumulator of `_collect_domain_data` (its
`recommendations` list is never filled by the source). -/
structure DomainData where
  insights : List Value
  patterns : List Value
  recommendations : List Value

/-- `_collect_domain_data`. -/
def collect_domain_data (st : OrchState) (domain : String) : DomainData :=
  st.agents.foldl
    (fun dd p =>
      if domain ∈ p.2.expertise_domains then
        { dd with
          insights := dd.insights ++
            (match alistGet p.2.knowledge_base domain with
             | some (Value.vList l) => l
             | _ => []),
          patterns := dd.patterns ++
            ((p.2.learning_history.filter
                (fun pat => Value.vStr domain ∈ dgetList (.vDict pat) "domains")).map .vDict) }
      else dd)
    ⟨[], [], []⟩

/-- `_generate_pattern_key`.  `sorted(pattern["domains"])` is modelled on
the string views of the listed domains (the source only ever stores
strings there). -/
def generate_pattern_key (pattern : Value) : String :=
  let e1 : List String :=
    match dget pattern "type" with
    | some v => ["type:" ++ strVS v]
    | none => []
  let e2 : List String :=
    match dget pattern "domains" with
    | some (.vList ds) =>
        let sorted := List.insertionSort (fun a b => strLeB a.data b.data = true) (ds.map strVS)
        ["domains:" ++ joinSep "," sorted]
    | _ => []
  joinSep "|" (e1 ++ e2)

instance : DecidableRel (fun (a b : String) => strLeB a.data b.data = true) := fun a b =>
  inferInstanceAs (Decidable (strLeB a.data b.data = true))

/-- One `pattern_frequency[key]` group of `_extract_frequent_patterns`
(keeps the first pattern seen for the key). -/
structure PatGroup where
  count : Nat
  pattern : Value
  deriving DecidableEq

/-- Sort order over pattern groups (stable descending by count). -/
def rPatGroup (a b : String × PatGroup) : Prop := b.2.count ≤ a.2.count

instance : DecidableRel rPatGroup := fun a b => inferInstanceAs (Decidable (b.2.count ≤ a.2.count))

/-- `_extract_frequent_patterns`. -/
def extract_frequent_patterns (patterns : List Value) : List Value :=
  let groups : List (String × PatGroup) :=
    patterns.foldl
      (fun acc pattern =>
        let key := generate_pattern_key pattern
        let g := (alistGet acc key).getD ⟨0, pattern⟩
        alistSet acc key ⟨g.count + 1, g.pattern⟩)
      []
  ((List.insertionSort rPatGroup groups).map fun g =>
    Value.vDict [("count", .vInt (g.2.count : Int)), ("pattern", g.2.pattern)]).take 5

/-- `_extract_key_points` (a Python set; insertion order modelled). -/
def extract_key_points (insights : List Value) : List Value :=
  insights.foldl
    (fun pts ins =>
      match dget ins "key_points" with
      | some (.vList l) => setUpdate pts l
      | _ => pts)
    []

/-- `_calculate_insight_confidence`: `confidence_sum / len(insights)` as a
formal fraction (0 on the empty list). -/
def calculate_insight_confidence (insights : List Value) : Value :=
  if insights.isEmpty then .vInt 0
  else .vFrac (insights.foldl (fun s i => s + numOf ((dget i "confidence").getD (.vInt 0))) 0)
         (insights.length : Int)

/-- Sort key `x["frequency"]` of the summary/theme dicts. -/
def freqOf (v : Value) : Int := numOf ((dget v "frequency").getD (.vInt 0))

/-- Stable descending order by the `frequency` entry. -/
def rByFrequency (a b : Value) : Prop := freqOf b ≤ freqOf a

instance : DecidableRel rByFrequency := fun a b => inferInstanceAs (Decidable (freqOf b ≤ freqOf a))

/-- `_summarize_insights`. -/
def summarize_insights (insights : List Value) : List Value :=
  let groups : List (Value × List Value) :=
    insights.foldl
      (fun acc ins =>
        let topic := (dget ins "topic").getD (.vStr "general")
        alistSet acc topic ((alistGet acc topic).getD [] ++ [ins]))
      []
  let summaries := groups.map fun g =>
    Value.vDict [("topic", g.1),
                 ("key_points", .vList (extract_key_points g.2)),
                 ("frequency", .vInt (g.2.length : Int)),
                 ("confidence", calculate_insight_confidence g.2)]
  List.insertionSort rByFrequency summaries

/-- `x.get("priority", 0)` as a number. -/
def recPriority (v : Value) : Int := numOf ((dget v "priority").getD (.vInt 0))

/-- Stable descending order by priority
(`sorted(recs, key=lambda x: x.get("priority", 0), reverse=True)`). -/
def rByPriority (a b : Value) : Prop := recPriority b ≤ recPriority a

instance : DecidableRel rByPriority := fun a b =>
  inferInstanceAs (Decidable (recPriority b ≤ recPriority a))

/-- One `theme_data[theme]` group of `_identify_recommendation_themes`. -/
structure ThemeGroup where
  count : Nat
  total_priority : Int
  recs : List Value
  deriving DecidableEq

/-- `_identify_recommendation_themes` (`average_priority` kept as a formal
fraction; only reached with `count ≥ 1`). -/
def identify_recommendation_themes (recommendations : List Value) : List Value :=
  let groups : List (Value × ThemeGroup) :=
    recommendations.foldl
      (fun acc rec =>
        let theme := (dget rec "theme").getD (.vStr "general")
        let g := (alistGet acc theme).getD ⟨0, 0, []⟩
        alistSet acc theme ⟨g.count + 1, g.total_priority + recPriority rec, g.recs ++ [rec]⟩)
      []
  let themes := groups.map fun g =>
    Value.vDict [("theme", g.1),
                 ("frequency", .vInt (g.2.count : Int)),
                 ("average_priority", .vFrac g.2.total_priority (g.2.count : Int)),
                 ("example_recommendations",
                   .vList ((List.insertionSort rByPriority g.2.recs).take 3))]
  List.insertionSort rByFrequency themes

/-- `_analyze_domain_relationships`. -/
def analyze_domain_relationships (dd : DomainData) : Ctx :=
  [("frequent_patterns", .vList (extract_frequent_patterns dd.patterns)),
   ("key_insights", .vList (summarize_insights dd.insights)),
   ("recommendation_themes", .vList (identify_recommendation_themes dd.recommendations))]

/-- `_generate_cross_domain_insights`. -/
def generate_cross_domain_insights (st : OrchState) : Ctx :=
  st.domain_expertise_map.foldl
    (fun ins p => alistSet ins p.1 (.vDict (analyze_domain_relationships (collect_domain_data st p.1))))
    []

/-- `_analyze_temporal_context`. -/
def analyze_temporal_context (clock : Clock) (st : OrchState) : Ctx :=
  if st.context_history.isEmpty then []
  else
    [("time_of_day", .vInt clock.hour),
     ("day_of_week", .vInt clock.weekday),
     ("recent_interactions",
       .vInt (st.context_history.countP (fun r => decide (clock.daysSince r.timestamp < 7)) : Int))]

/-- `_enhance_global_context`: copy the caller's context (an empty or
`None` context starts from `{}`) and bind the three derived keys on the
copy. -/
def enhance_global_context (clock : Clock) (st : OrchState) (context : Option Ctx) : Ctx :=
  let enhanced :=
    match context with
    | some c => if c.isEmpty then [] else c
    | none => []
  let enhanced := alistSet enhanced "global_patterns" (.vDict (analyze_global_patterns clock st))
  let enhanced := alistSet enhanced "cross_domain_insights" (.vDict (generate_cross_domain_insights st))
  let enhanced := alistSet enhanced "temporal_context" (.vDict (analyze_temporal_context clock st))
  enhanced

/-! ### Dispatch (`_identify_relevant_agents` and helpers). -/

/-- The keyword-trigger table hard-coded in `_context_matches_domain`. -/
def domainKeywords (domain : String) : Option (List String) :=
  if domain = "career" then some ["job", "career", "skills", "professional"]
  else if domain = "finance" then some ["money", "salary", "compensation", "financial"]
  else if domain = "health" then some ["health", "wellness", "stress", "balance"]
  else none

/-- `_context_matches_domain`: any keyword of the domain occurs as a
substring of `str(context).lower()`. -/
def context_matches_domain (context : Ctx) (domain : String) : Bool :=
  match domainKeywords domain with
  | none => false
  | some kws => kws.any (fun k => containsSub (lowerStr (reprV (.vDict context))) k.data)

/-- `_identify_relevant_domains`: the explicit `industry` value (whatever
Python object it is) plus every expertise-map key whose keywords match. -/
def identify_relevant_domains (st : OrchState) (context : Ctx) : List Value :=
  let rd : List Value :=
    match alistGet context "industry" with
    | some v => setAdd [] v
    | none => []
  st.domain_expertise_map.foldl
    (fun rd p => if context_matches_domain context p.1 then setAdd rd (.vStr p.1) else rd)
    rd

/-- `_context_matches_pattern`: some key of the stored pattern context is
present in the current context with an equal value. -/
def context_matches_pattern (context : Ctx) (pattern : Ctx) : Bool :=
  let pctx : Ctx :=
    match alistGet pattern "context" with
    | some (Value.vDict d) => d
    | _ => []
  pctx.any fun kv =>
    match alistGet context kv.1 with
    | some cv => cv == kv.2
    | none => false

/-- `_identify_pattern_based_relevance`: union of the `successful_agents`
sets of every matching stored pattern. -/
def identify_pattern_based_relevance (st : OrchState) (context : Ctx) : List Value :=
  st.interaction_patterns.foldl
    (fun acc pattern =>
      if context_matches_pattern context pattern then
        setUpdate acc (dgetList (.vDict pattern) "successful_agents")
      else acc)
    []

/-- `_identify_relevant_agents`: domain-matched owners (only string-typed
domains can hit the string-keyed expertise map) unioned with
pattern-based hits. -/
def identify_relevant_agents (st : OrchState) (context : Ctx) : List Value :=
  let relevant : List Value :=
    (identify_relevant_domains st context).foldl
      (fun acc domain =>
        match domain with
        | Value.vStr s =>
            match alistGet st.domain_expertise_map s with
            | some ids => setUpdate acc (ids.map .vStr)
            | none => acc
        | _ => acc)
      []
  setUpdate relevant (identify_pattern_based_relevance st context)

/-! ### Response gathering and integration (`_gather_agent_responses`,
`_integrate_responses`). -/

/-- The loop of `_gather_agent_responses`: skip the primary ID and
unregistered IDs (`if agent:`); a raising `process_input` propagates and
aborts the whole gather.  A non-string member of the relevant set can
never equal the primary ID nor hit the registry, so it is skipped. -/
def gatherGo (st : OrchState) (user_input : String) (primary_agent_id : String) (context : Ctx) :
    List Value → List (String × AgentResp) → Except String (List (String × AgentResp))
  | [], acc => .ok acc
  | aid :: rest, acc =>
      match aid with
      | Value.vStr s =>
          if s = primary_agent_id then gatherGo st user_input primary_agent_id context rest acc
          else
            match alistGet st.agents s with
            | none => gatherGo st user_input primary_agent_id context rest acc
            | some agent =>
                match agent.process user_input context with
                | .error e => .error e
                | .ok response =>
                    gatherGo st user_input primary_agent_id context rest
                      (acc ++ [(s, ⟨response, calculate_confidence response⟩)])
      | _ => gatherGo st user_input primary_agent_id context rest acc

/-- `_gather_agent_responses`. -/
def gather_agent_responses (st : OrchState) (user_input : String) (primary_agent_id : String)
    (relevant_agents : List Value) (context : Ctx) : Except String (List (String × AgentResp)) :=
  gatherGo st user_input primary_agent_id context relevant_agents []

/-- `_extract_key_insight` (identity in the source). -/
def extract_key_insight (response : String) : String := response

/-- `_merge_insight`. -/
def merge_insight (base_response insight : String) : String :=
  if insight ≠ "" then base_response ++ "\n\nAdditional insight: " ++ insight
  else base_response

/-- Sort order of `sorted(related.items(), key=lambda x:
x[1]["confidence"], reverse=True)`: stable descending by confidence. -/
def rRespConf (a b : String × AgentResp) : Prop := b.2.confidence ≤ a.2.confidence

instance : DecidableRel rRespConf := fun a b =>
  inferInstanceAs (Decidable (b.2.confidence ≤ a.2.confidence))

instance : IsTotal (String × AgentResp) rRespConf :=
  ⟨fun a b => Int.le_total b.2.confidence a.2.confidence⟩

instance : IsTrans (String × AgentResp) rRespConf :=
  ⟨fun _ _ _ h1 h2 => Int.le_trans h2 h1⟩

/-- The merging loop of `_integrate_responses`:
`self.agents[agent_id]` raises `KeyError` on an unregistered ID; an
entry passing its own agent's threshold is merged. -/
def integrateGo (st : OrchState) : String → List (String × AgentResp) → Except String String
  | acc, [] => .ok acc
  | acc, (aid, d) :: rest =>
      match alistGet st.agents aid with
      | none => .error ("KeyError: " ++ aid)
      | some agent =>
          integrateGo st
            (if agent.confidence_threshold ≤ d.confidence then
              merge_insight acc (extract_key_insight d.response)
            else acc)
            rest

/-- `_integrate_responses`: start from the primary response and fold the
confidence-sorted related responses. -/
def integrate_responses (st : OrchState) (primary_response : String)
    (related_responses : List (String × AgentResp)) : Except String String :=
  integrateGo st primary_response (List.insertionSort rRespConf related_responses)

/-! ### The coordination cycle (`coordinate_response` and the history
writers it calls). -/

/-- `_create_decision_point`: build the record and append it to
`self.decision_history` (no outcome yet). -/
def create_decision_point (clock : Clock) (st : OrchState) (user_input : String)
    (primary_agent_id : String) (context : Option Ctx) : DecisionPoint × OrchState :=
  let dp : DecisionPoint := ⟨clock.nowIso, user_input, primary_agent_id, context, [], none⟩
  (dp, { st with decision_history := st.decision_history ++ [dp] })

/-- `_extract_topics` (a Python set; insertion order modelled). -/
def extract_topics (context : Ctx) (_response : String) : List Value :=
  let topics : List Value :=
    match alistGet context "industry" with
    | some v => setAdd [] v
    | none => []
  match alistGet context "career_goals" with
  | some (Value.vDict goals) => setUpdate topics (goals.map (fun kv => .vStr kv.1))
  | _ => topics

/-- `_update_context_history`. -/
def update_context_history (clock : Clock) (st : OrchState) (context : Ctx) (response : String) :
    OrchState :=
  { st with
    context_history :=
      st.context_history ++ [⟨clock.nowIso, context, response, extract_topics context response⟩] }

/-- `_calculate_success_metrics` (tenths: 0.8/0.0, 0.7, 0.6). -/
def calculate_success_metrics (response : String) : SuccessMetrics :=
  ⟨if response ≠ "" then 8 else 0, 7, 6⟩

/-- Replace the last element of a list (Python mutates the aliased dict
object that was appended at the start of the cycle, which is the last
entry of `decision_history`). -/
def updateLast {α : Type} (f : α → α) : List α → List α
  | [] => []
  | [a] => [f a]
  | a :: rest => a :: updateLast f rest

/-- `_record_decision_outcome`: attach response, outcome timestamp and
success metrics to this cycle's decision point. -/
def record_decision_outcome (clock : Clock) (st : OrchState) (response : String) : OrchState :=
  { st with
    decision_history :=
      updateLast
        (fun dp => { dp with outcome := some ⟨response, clock.nowIso, calculate_success_metrics response⟩ })
        st.decision_history }

/-- The dict `coordinate_response` returns: either the success payload or
the caught-exception payload. -/
inductive CoordResult where
  | success (primary_response : String) (related_responses : List (String × AgentResp))
      (integrated_response : String) (context : Ctx) (timestamp : String) : CoordResult
  | error (msg : String) (timestamp : String) : CoordResult

/-- The `status` field of the returned dict. -/
def CoordResult.status : CoordResult → String
  | .success _ _ _ _ _ => "success"
  | .error _ _ => "error"

/-- The `related_responses` field (empty on the error payload, which
carries none). -/
def CoordResult.related : CoordResult → List (String × AgentResp)
  | .success _ related _ _ _ => related
  | .error _ _ => []

/-- `coordinate_response`: append the decision point, then run the guarded
body; any raised exception is caught and converted to the error payload,
leaving the state as it was at the point of the raise (the only state
writes of the body happen after the last possible raise). -/
def coordinate_response (clock : Clock) (st : OrchState) (user_input : String)
    (primary_agent_id : String) (context : Option Ctx) : CoordResult × OrchState :=
  let st1 := (create_decision_point clock st user_input primary_agent_id context).2
  let body : Except String (CoordResult × OrchState) :=
    match alistGet st1.agents primary_agent_id with
    | none => .error ("Primary agent " ++ primary_agent_id ++ " not found")
    | some primary_agent =>
        let enhanced := enhance_global_context clock st1 context
        match primary_agent.process user_input enhanced with
        | .error e => .error e
        | .ok primary_response =>
            let relevant := identify_relevant_agents st1 enhanced
            match gather_agent_responses st1 user_input primary_agent_id relevant enhanced with
            | .error e => .error e
            | .ok related =>
                match integrate_responses st1 primary_response related with
                | .error e => .error e
                | .ok final_response =>
                    let st2 := update_context_history clock st1 enhanced final_response
                    let st3 := record_decision_outcome clock st2 final_response
                    .ok (.success primary_response related final_response enhanced clock.nowIso, st3)
  match body with
  | .ok r => r
  | .error e => (.error e clock.nowIso, st1)

/-! ### Recommendation analysis (`_analyze_recommendation_relationships`,
`_integrate_recommendations` and helpers). -/

/-- `_recommendations_conflict`: equal `type` values (including both
absent) and both priorities strictly positive. -/
def recommendations_conflict (rec1 rec2 : Value) : Bool :=
  if dget rec1 "type" == dget rec2 "type" then
    if recPriority rec1 > 0 && recPriority rec2 > 0 then true else false
  else false

/-- `_recommendations_synergize`: different `type` values and overlapping
`skills` sets. -/
def recommendations_synergize (rec1 rec2 : Value) : Bool :=
  if dget rec1 "type" != dget rec2 "type" then
    (dgetList rec1 "skills").any (fun s => s ∈ dgetList rec2 "skills")
  else false

/-- `_recommendations_depend`: a non-empty `required_skills` list meeting
the other's `provided_skills`. -/
def recommendations_depend (rec1 rec2 : Value) : Bool :=
  if (dgetList rec1 "required_skills").isEmpty then false
  else (dgetList rec1 "required_skills").any (fun s => s ∈ dgetList rec2 "provided_skills")

/-- Flatten `recommendations.values()` in insertion order. -/
def flattenRecs (recommendations : List (String × List Value)) : List Value :=
  recommendations.foldl (fun acc p => acc ++ p.2) []

/-- All ordered pairs `i < j` of the flattened list passing `p`, mapped to
`mk rec_i rec_j` (the double loop shared by the three analyses). -/
def pairScan (p : Value → Value → Bool) (mk : Value → Value → Value) : List Value → List Value
  | [] => []
  | r1 :: rest => (rest.filter (p r1)).map (mk r1) ++ pairScan p mk rest

/-- `_identify_conflicts`. -/
def identify_conflicts (recommendations : List (String × List Value)) : List Value :=
  pairScan recommendations_conflict
    (fun r1 r2 => .vDict [("rec1", r1), ("rec2", r2), ("type", .vStr "mutually_exclusive")])
    (flattenRecs recommendations)

/-- `_identify_synergies`. -/
def identify_synergies (recommendations : List (String × List Value)) : List Value :=
  pairScan recommendations_synergize
    (fun r1 r2 => .vDict [("rec1", r1), ("rec2", r2), ("type", .vStr "complementary")])
    (flattenRecs recommendations)

/-- `_identify_dependencies`. -/
def identify_dependencies (recommendations : List (String × List Value)) : List Value :=
  pairScan recommendations_depend
    (fun r1 r2 => .vDict [("dependent", r1), ("prerequisite", r2), ("type", .vStr "prerequisite")])
    (flattenRecs recommendations)

/-- `_analyze_recommendation_relationships`. -/
def analyze_recommendation_relationships (recommendations : List (String × List Value)) : Ctx :=
  [("conflicts", .vList (identify_conflicts recommendations)),
   ("synergies", .vList (identify_synergies recommendations)),
   ("dependencies", .vList (identify_dependencies recommendations))]

/-- The sort key of `_sort_recommendations`:
`(priority, len(synergies), -len(conflicts))`. -/
def recKeyOf (v : Value) : Int × Int × Int :=
  (recPriority v, ((dgetList v "synergies").length : Int), -((dgetList v "conflicts").length : Int))

/-- Lexicographic `≤` on `Int` triples (Python tuple comparison). -/
def tripleLex (x y : Int × Int × Int) : Prop :=
  x.1 < y.1 ∨ (x.1 = y.1 ∧ (x.2.1 < y.2.1 ∨ (x.2.1 = y.2.1 ∧ x.2.2 ≤ y.2.2)))

instance : ∀ x y : Int × Int × Int, Decidable (tripleLex x y) := fun _x _y =>
  inferInstanceAs (Decidable (_ ∨ _))

/-- Order of `sorted(all_recs, key=…, reverse=True)`: stable descending by
the key triple. -/
def rRecOrder (a b : Value) : Prop := tripleLex (recKeyOf b) (recKeyOf a)

instance : DecidableRel rRecOrder := fun a b =>
  inferInstanceAs (Decidable (tripleLex (recKeyOf b) (recKeyOf a)))

/-- `_sort_recommendations`: flatten the *analysis* dict's list values
(its entries are the conflict/synergy/dependency records, not the
original recommendations) and sort them. -/
def sort_recommendations (analyzed_recommendations : Ctx) : List Value :=
  let all_recs :=
    analyzed_recommendations.foldl
      (fun acc p =>
        match p.2 with
        | Value.vList l => acc ++ l
        | _ => acc)
      []
  List.insertionSort rRecOrder all_recs

/-- `_has_direct_conflict` (placeholder in the source: always `False`). -/
def has_direct_conflict (_rec1 _rec2 : Value) : Bool := false

/-- `_has_indirect_conflict` (placeholder in the source: always
`False`). -/
def has_indirect_conflict (_rec : Value) (_existing : List Value) : Bool := false

/-- `_conflicts_with_existing`. -/
def conflicts_with_existing (new_rec : Value) (existing_recs : List Value) : Bool :=
  if existing_recs.isEmpty then false
  else if existing_recs.any (fun ex => has_direct_conflict new_rec ex) then true
  else has_indirect_conflict new_rec existing_recs

/-- `_integrate_recommendations`: greedily admit sorted items that do not
conflict with the already-admitted ones. -/
def integrate_recommendations (analyzed_recommendations : Ctx) : List Value :=
  (sort_recommendations analyzed_recommendations).foldl
    (fun integrated rec =>
      if conflicts_with_existing rec integrated then integrated else integrated ++ [rec])
    []

/-! ### Aliasing model for `_enhance_global_context` (claim C8).
Contexts live in an identity-indexed store so that "copies, never mutates
the caller's dict" is expressible. -/

/-- A heap of Python dict objects: identity → current contents, plus the
next fresh identity. -/
structure DictStore where
  entries : List (Nat × Ctx)
  next : Nat

/-- Dereference a dict identity. -/
def storeGet (s : DictStore) (i : Nat) : Option Ctx := alistGet s.entries i

/-- Allocate a fresh dict object with the given contents. -/
def storeAlloc (s : DictStore) (c : Ctx) : DictStore × Nat :=
  ({ entries := s.entries ++ [(s.next, c)], next := s.next + 1 }, s.next)

/-- Apply `d[k] = v` to the dict object with identity `i` in an entry
list, leaving all other objects untouched. -/
def storeSetEntries (i : Nat) (k : String) (v : Value) : List (Nat × Ctx) → List (Nat × Ctx)
  | [] => []
  | (j, c) :: rest =>
      if j = i then (j, alistSet c k v) :: storeSetEntries i k v rest
      else (j, c) :: storeSetEntries i k v rest

/-- In-place `d[k] = v` on the dict object `i`. -/
def storeSetKey (s : DictStore) (i : Nat) (k : String) (v : Value) : DictStore :=
  { s with entries := storeSetEntries i k v s.entries }

/-- `_enhance_global_context` at the object level: `context.copy()` (or a
fresh `{}` for a falsy context) allocates a new dict object, and the three
key writes mutate only the new object. -/
def enhance_global_context_alloc (clock : Clock) (st : OrchState) (s : DictStore)
    (contextId : Option Nat) : DictStore × Nat :=
  let base : Ctx :=
    match contextId with
    | some i =>
        match storeGet s i with
        | some c => if c.isEmpty then [] else c
        | none => []
    | none => []
  let alloc := storeAlloc s base
  let s2 := storeSetKey alloc.1 alloc.2 "global_patterns" (.vDict (analyze_global_patterns clock st))
  let s3 := storeSetKey s2 alloc.2 "cross_domain_insights" (.vDict (generate_cross_domain_insights st))
  let s4 := storeSetKey s3 alloc.2 "temporal_context" (.vDict (analyze_temporal_context clock st))
  (s4, alloc.2)

/-! ### Spec-side definitions and concrete instances used by the claim
theorems. -/

/-- Modelled from the claim's words (C5): confidence "equals a base of
0.5, plus 0.1 if the response's word count exceeds 50, plus 0.2 if
structural punctuation is present, plus 0.2 if any digit is present,
capped at 1.0" — in tenths, with the same three predicates as the code
and no special case for any input. -/
def claimed_confidence (response : String) : Int :=
  min
    (5 + (if wordCount response > 50 then 1 else 0) +
      (if containsSub response.data ":".data || containsSub response.data "-".data ||
          containsSub response.data bulletMoji then 2 else 0) +
      (if response.data.any isDigitCh then 2 else 0))
    10

/-- The concatenated topic stream of a history, in recording order (the
order `_identify_common_topics` visits topics). -/
def topicStream (history : List HistRecord) : List Value :=
  history.foldr (fun r acc => r.topics ++ acc) []

/-- Index of the first occurrence of `t` in `l` (`l.length` if absent). -/
def firstIdx (l : List Value) (t : Value) : Nat :=
  match l with
  | [] => 0
  | x :: rest => if x = t then 0 else firstIdx rest t + 1

/-- The ranking the spec describes for the pattern digest: `a` strictly
precedes `b` when it is more frequent in the stream, or equally frequent
and first seen earlier. -/
def topicBefore (S : List Value) (a b : Value) : Prop :=
  S.count b < S.count a ∨ (S.count a = S.count b ∧ firstIdx S a < firstIdx S b)

/-- Key list of a gather result (empty on a propagated exception). -/
def gatherKeys (e : Except String (List (String × AgentResp))) : List String :=
  match e with
  | .ok l => l.map Prod.fst
  | .error _ => []

/-- A fixed wall clock for the concrete scenarios. -/
def clock0 : Clock := ⟨9, 2, "2025-01-01T09:00:00", fun _ => 0⟩

/-- The knowledge base `BaseAgent._load_knowledge_base` installs (the
timestamp is an arbitrary fixed isoformat string). -/
def kb0 : Ctx :=
  [("version", .vStr "1.0"), ("last_updated", .vStr "2025-01-01T00:00:00"),
   ("domains", .vDict [])]

/-- A freshly constructed orchestrator: every collection empty. -/
def emptyState : OrchState := ⟨[], [], [], [], []⟩

/-- C3 scenario: a registered primary whose `process_input` raises. -/
def failPrimary : Agent := ⟨"p1", "Primary", [], 7, kb0, [], fun _ _ => .error "llm down"⟩

/-- C3 scenario state. -/
def st_c3 : OrchState := register_agent emptyState failPrimary

/-- C2 scenario: a working primary. -/
def agP : Agent := ⟨"p", "P", [], 7, kb0, [], fun _ _ => .ok "primary answer"⟩

/-- C2 scenario: a secondary that answers. -/
def agS1 : Agent := ⟨"s1", "S1", [], 7, kb0, [], fun _ _ => .ok "fine"⟩

/-- C2 scenario: a secondary that raises. -/
def agS2 : Agent := ⟨"s2", "S2", [], 7, kb0, [], fun _ _ => .error "s2 down"⟩

/-- C2 scenario state: three registered workers plus a stored interaction
pattern that marks `s1` and `s2` as successful for context `{k: v}`. -/
def st_c2 : OrchState :=
  { register_agent (register_agent (register_agent emptyState agP) agS1) agS2 with
    interaction_patterns :=
      [[("context", .vDict [("k", .vStr "v")]),
        ("successful_agents", .vList [.vStr "s1", .vStr "s2"])]] }

/-- C7 scenario: the career worker (the primary). -/
def agW1 : Agent := ⟨"w1", "CareerW", ["career"], 7, kb0, [], fun _ _ => .ok "career advice"⟩

/-- C7 scenario: the finance worker. -/
def agW2 : Agent := ⟨"w2", "FinanceW", ["finance"], 7, kb0, [], fun _ _ => .ok "finance advice"⟩

/-- C7 scenario state. -/
def st_c7 : OrchState := register_agent (register_agent emptyState agW1) agW2

/-- C7 scenario request context. -/
def ctx7 : Ctx := [("industry", .vStr "finance")]

/-- C1 scenario: the priority-5 recommendation of Scenario C. -/
def recA : Value := .vDict [("type", .vStr "career_move"), ("priority", .vInt 5)]

/-- C1 scenario: the priority-3 recommendation of the same type. -/
def recB : Value := .vDict [("type", .vStr "career_move"), ("priority", .vInt 3)]

/-- C1 scenario batch (one worker emitting both recommendations). -/
def c1_batch : List (String × List Value) := [("agent1", [recA, recB])]

/-- The conflict record `_identify_conflicts` produces for the pair. -/
def c1_conflict_record : Value :=
  .vDict [("rec1", recA), ("rec2", recB), ("type", .vStr "mutually_exclusive")]

/-- C4 scenario: the first worker registered under ID `x`. -/
def agFirst : Agent := ⟨"x", "first", ["career"], 7, kb0, [], fun _ _ => .ok "a"⟩

/-- C4 scenario: a different worker with the same ID `x`. -/
def agSecond : Agent := ⟨"x", "second", ["finance"], 7, kb0, [], fun _ _ => .ok "b"⟩

/-- C8 scenario store: one caller-owned dict object. -/
def store0 : DictStore := ⟨[(0, [("k", .vStr "v")])], 1⟩

/-! ### Association-list lemmas shared by the claim proofs. -/

theorem alistGet_alistSet_self {κ α : Type} [DecidableEq κ] (l : List (κ × α)) (k : κ) (v : α) :
    alistGet (alistSet l k v) k = some v := by
  induction l with
  | nil => simp [alistSet, alistGet]
  | cons p rest ih =>
      obtain ⟨k0, v0⟩ := p
      by_cases h : k0 = k
      · simp [alistSet, alistGet, h]
      · simp [alistSet, alistGet, h, ih]

theorem alistGet_alistSet_ne {κ α : Type} [DecidableEq κ] (l : List (κ × α)) (k k' : κ) (v : α)
    (h : k ≠ k') : alistGet (alistSet l k v) k' = alistGet l k' := by
  induction l with
  | nil => simp [alistSet, alistGet, h]
  | cons p rest ih =>
      obtain ⟨k0, v0⟩ := p
      by_cases h0 : k0 = k
      · subst h0
        simp [alistSet, alistGet, h]
      · simp [alistSet, alistGet, h0, ih]

theorem alistGet_mem {κ α : Type} [DecidableEq κ] (l : List (κ × α)) (k : κ) (v : α)
    (h : alistGet l k = some v) : (k, v) ∈ l := by
  induction l with
  | nil => simp [alistGet] at h
  | cons p rest ih =>
      obtain ⟨k0, v0⟩ := p
      by_cases h0 : k0 = k
      · subst h0
        simp [alistGet] at h
        simp [h]
      · simp [alistGet, h0] at h
        exact List.mem_cons_of_mem _ (ih h)

theorem alistGet_append_left {κ α : Type} [DecidableEq κ] (l1 l2 : List (κ × α)) (k : κ) (v : α)
    (h : alistGet l1 k = some v) : alistGet (l1 ++ l2) k = some v := by
  induction l1 with
  | nil => simp [alistGet] at h
  | cons p rest ih =>
      obtain ⟨k0, v0⟩ := p
      by_cases h0 : k0 = k
      · simp [alistGet, h0] at h ⊢
        exact h
      · simp [alistGet, h0] at h ⊢
        exact ih h

theorem alistGet_append_right {κ α : Type} [DecidableEq κ] (l1 l2 : List (κ × α)) (k : κ)
    (h : alistGet l1 k = none) : alistGet (l1 ++ l2) k = alistGet l2 k := by
  induction l1 with
  | nil => simp
  | cons p rest ih =>
      obtain ⟨k0, v0⟩ := p
      by_cases h0 : k0 = k
      · simp [alistGet, h0] at h
      · simp [alistGet, h0] at h ⊢
        exact ih h

theorem alistSet_of_get_none {κ α : Type} [DecidableEq κ] (l : List (κ × α)) (k : κ) (v : α)
    (h : alistGet l k = none) : alistSet l k v = l ++ [(k, v)] := by
  induction l with
  | nil => simp [alistSet]
  | cons p rest ih =>
      obtain ⟨k0, v0⟩ := p
      by_cases h0 : k0 = k
      · simp [alistGet, h0] at h
      · simp [alistGet, h0] at h
        simp [alistSet, h0, ih h]

theorem alistSet_keys_of_get_some {κ α : Type} [DecidableEq κ] (l : List (κ × α)) (k : κ)
    (w v : α) (h : alistGet l k = some w) :
    (alistSet l k v).map Prod.fst = l.map Prod.fst := by
  induction l with
  | nil => simp [alistGet] at h
  | cons p rest ih =>
      obtain ⟨k0, v0⟩ := p
      by_cases h0 : k0 = k
      · subst h0
        simp [alistSet]
      · simp [alistGet, h0] at h
        simp [alistSet, h0, ih h]

theorem updateLast_length {α : Type} (f : α → α) (l : List α) :
    (updateLast f l).length = l.length := by
  induction l with
  | nil => rfl
  | cons a rest ih =>
      cases rest with
      | nil => rfl
      | cons b rest2 => simpa [updateLast] using ih

theorem setAdd_mem_self {α : Type} [DecidableEq α] (l : List α) (x : α) : x ∈ setAdd l x := by
  by_cases h : x ∈ l <;> simp [setAdd, h]

theorem setAdd_mem_of_mem {α : Type} [DecidableEq α] (l : List α) (x y : α) (h : y ∈ l) :
    y ∈ setAdd l x := by
  by_cases hx : x ∈ l <;> simp [setAdd, hx, h]

/-! ### Claim C1 -/

/-- C1 (claim is a code bug): in the shipped pipeline
`_integrate_recommendations` receives the *analysis* dict, so for the
Scenario-C batch (two same-type recommendations with priorities 5 and 3)
the conflict pair is duly recorded, but the "integrated" output is the
flattened analysis records — the single conflict record — and admits
neither member of the pair; in particular the priority-5 recommendation is
not admitted, contradicting the claim that exactly it survives.  (The
conflict-exclusion guard `_has_direct_conflict` is moreover a constant
`False` placeholder, so it never excludes anything.) -/
theorem c1_integrate_loses_conflicting_recommendations :
    identify_conflicts c1_batch = [c1_conflict_record] ∧
    integrate_recommendations (analyze_recommendation_relationships c1_batch) =
      [c1_conflict_record] ∧
    recA ∉ integrate_recommendations (analyze_recommendation_relationships c1_batch) ∧
    integrate_recommendations (analyze_recommendation_relationships c1_batch) ≠ [recA] := by
  decide

/-! ### Claim C5 -/

/-- C5 (counterexample): the claim's formula is quantified over *every*
response string, but on the empty response the code returns 0.0 (in
tenths: 0) while the claimed formula yields the bare base 0.5 (in tenths:
5). -/
theorem c5_empty_response_confidence_not_base :
    calculate_confidence "" = 0 ∧ claimed_confidence "" = 5 ∧
      calculate_confidence "" ≠ claimed_confidence "" := by
  decide

/-- C5 (amended): for every *non-empty* response string the computed
confidence equals base 0.5, plus 0.1 if the word count exceeds 50, plus
0.2 if structural punctuation is present, plus 0.2 if any digit is
present, capped at 1.0 (all in tenths); the empty response returns 0. -/
theorem c5_confidence_formula_for_nonempty (r : String) (h : r ≠ "") :
    calculate_confidence r = claimed_confidence r := by
  simp only [calculate_confidence, claimed_confidence, if_neg h]

/-- C5 witness: the amended theorem applied at the concrete response
`"hello"`. -/
theorem c5_confidence_formula_for_nonempty_witness :
    "hello" ≠ "" ∧ calculate_confidence "hello" = claimed_confidence "hello" :=
  ⟨by decide, c5_confidence_formula_for_nonempty "hello" (by decide)⟩

/-! ### Claim C7 -/

/-- C7: with a registry holding the career worker `w1` (the primary) and
the finance worker `w2`, and request context `{"industry": "finance"}`,
the gathered secondary response set contains `w2` and not the primary
`w1`. -/
theorem c7_finance_secondary_included_primary_excluded :
    "w2" ∈ gatherKeys (gather_agent_responses st_c7 "q" "w1"
        (identify_relevant_agents st_c7 (enhance_global_context clock0 st_c7 (some ctx7)))
        (enhance_global_context clock0 st_c7 (some ctx7))) ∧
    "w1" ∉ gatherKeys (gather_agent_responses st_c7 "q" "w1"
        (identify_relevant_agents st_c7 (enhance_global_context clock0 st_c7 (some ctx7)))
        (enhance_global_context clock0 st_c7 (some ctx7))) := by
  decide

/-! ### Claim C4: counterexample -/

/-- C4 (counterexample): registering a second worker under the existing ID
`x` does not fail and does not leave the registry unchanged — the stored
worker is silently replaced by the new one. -/
theorem c4_duplicate_registration_overwrites :
    (alistGet (register_agent (register_agent emptyState agFirst) agSecond).agents "x").map
        Agent.name = some "second" ∧
    (alistGet (register_agent emptyState agFirst).agents "x").map Agent.name = some "first" := by
  decide

/-! ### Claim C3: counterexample -/

/-- C3 (counterexample): when the registered primary's `process_input`
raises, the cycle does return an error result, but the decision history is
*not* left unchanged — the decision point appended at the start of the
cycle stays behind. -/
theorem c3_failed_primary_still_appends_decision_point :
    (coordinate_response clock0 st_c3 "hello" "p1" (some [("k", .vStr "v")])).1.status = "error" ∧
    (coordinate_response clock0 st_c3 "hello" "p1" (some [("k", .vStr "v")])).2.decision_history ≠
      st_c3.decision_history := by
  decide

/-! ### Claim C2: counterexample -/

/-- C2 (counterexample): a cycle with two selected secondaries of which
exactly one raises does *not* return `status=success` with the surviving
response — the uncaught secondary exception aborts the cycle with
`status=error` and no related responses. -/
theorem c2_failing_secondary_aborts_cycle :
    (coordinate_response clock0 st_c2 "q" "p" (some [("k", .vStr "v")])).1.status = "error" ∧
    (coordinate_response clock0 st_c2 "q" "p" (some [("k", .vStr "v")])).1.related = [] := by
  decide

/-! ### Claim C4: amended behaviour -/

theorem expertise_fold_extends (aid : String) (domains : List String) :
    ∀ (m : List (String × List String)) (d : String) (ids : List String),
      alistGet m d = some ids →
      ∃ ids2,
        alistGet
          (domains.foldl
            (fun m domain => alistSet m domain (setAdd ((alistGet m domain).getD []) aid)) m)
          d = some ids2 ∧ ∀ i ∈ ids, i ∈ ids2 := by
  induction domains with
  | nil => exact fun m d ids h => ⟨ids, h, fun i hi => hi⟩
  | cons dom rest ih =>
      intro m d ids h
      by_cases hd : dom = d
      · subst hd
        have h1 : alistGet (alistSet m dom (setAdd ((alistGet m dom).getD []) aid)) dom =
            some (setAdd ((alistGet m dom).getD []) aid) := alistGet_alistSet_self _ _ _
        obtain ⟨ids2, h2, h3⟩ := ih _ dom _ h1
        refine ⟨ids2, h2, fun i hi => h3 i ?_⟩
        rw [h] at h1 ⊢
        exact setAdd_mem_of_mem _ _ _ hi
      · have h1 : alistGet (alistSet m dom (setAdd ((alistGet m dom).getD []) aid)) d =
            some ids := by
          rw [alistGet_alistSet_ne _ _ _ _ hd]
          exact h
        exact ih _ d ids h1

theorem expertise_fold_adds (aid : String) (domains : List String) :
    ∀ (m : List (String × List String)) (d : String), d ∈ domains →
      ∃ ids2,
        alistGet
          (domains.foldl
            (fun m domain => alistSet m domain (setAdd ((alistGet m domain).getD []) aid)) m)
          d = some ids2 ∧ aid ∈ ids2 := by
  induction domains with
  | nil => intro m d h; cases h
  | cons dom rest ih =>
      intro m d hmem
      by_cases hd : d = dom
      · subst hd
        have h1 : alistGet (alistSet m d (setAdd ((alistGet m d).getD []) aid)) d =
            some (setAdd ((alistGet m d).getD []) aid) := alistGet_alistSet_self _ _ _
        obtain ⟨ids2, h2, h3⟩ := expertise_fold_extends aid rest _ d _ h1
        exact ⟨ids2, h2, h3 _ (setAdd_mem_self _ _)⟩
      · have hmem2 : d ∈ rest := by
          cases hmem with
          | head => exact absurd rfl hd
          | tail _ h => exact h
        exact ih _ d hmem2

/-- C4 (amended): registering a worker never fails; it rebinds the
worker's ID in the registry to the new worker (silently overwriting any
existing binding) and only extends the capability index: every existing
owner set is preserved and the new worker's ID is added to the owner set
of each of its declared capabilities. -/
theorem c4_duplicate_registration_rebinds_and_extends_index (st : OrchState) (ag : Agent) :
    alistGet (register_agent st ag).agents ag.agent_id = some ag ∧
    (∀ d ids, alistGet st.domain_expertise_map d = some ids →
      ∃ ids2, alistGet (register_agent st ag).domain_expertise_map d = some ids2 ∧
        ∀ i ∈ ids, i ∈ ids2) ∧
    (∀ d, d ∈ ag.expertise_domains →
      ∃ ids2, alistGet (register_agent st ag).domain_expertise_map d = some ids2 ∧
        ag.agent_id ∈ ids2) := by
  refine ⟨?_, ?_, ?_⟩
  · show alistGet (alistSet st.agents ag.agent_id ag) ag.agent_id = some ag
    exact alistGet_alistSet_self _ _ _
  · intro d ids h
    exact expertise_fold_extends ag.agent_id ag.expertise_domains _ d ids h
  · intro d hd
    exact expertise_fold_adds ag.agent_id ag.expertise_domains _ d hd

/-- C4 witness: the amended theorem applied to the duplicate registration
of `agSecond` over `agFirst`. -/
theorem c4_duplicate_registration_rebinds_and_extends_index_witness :
    alistGet (register_agent (register_agent emptyState agFirst) agSecond).agents "x" =
        some agSecond ∧
    ∃ ids2,
      alistGet (register_agent (register_agent emptyState agFirst) agSecond).domain_expertise_map
          "finance" = some ids2 ∧ "x" ∈ ids2 :=
  ⟨(c4_duplicate_registration_rebinds_and_extends_index (register_agent emptyState agFirst)
      agSecond).1,
   (c4_duplicate_registration_rebinds_and_extends_index (register_agent emptyState agFirst)
      agSecond).2.2 "finance" (by decide)⟩

/-! ### Claim C3: amended behaviour -/

/-- C3 (amended): when the primary worker's `process` invocation raises,
the cycle aborts with an error result, but the decision history is *not*
left unchanged: the decision point created at the start of the cycle (with
no outcome attached) remains appended for the failed attempt. -/
theorem c3_failed_primary_error_with_partial_record
    (clock : Clock) (st : OrchState) (ui pid : String) (ctx : Option Ctx) (ag : Agent)
    (msg : String) (hlook : alistGet st.agents pid = some ag)
    (hfail : ag.process ui
        (enhance_global_context clock (create_decision_point clock st ui pid ctx).2 ctx) =
      .error msg) :
    (coordinate_response clock st ui pid ctx).1.status = "error" ∧
    (coordinate_response clock st ui pid ctx).2.decision_history =
      st.decision_history ++ [⟨clock.nowIso, ui, pid, ctx, [], none⟩] := by
  have hag : (create_decision_point clock st ui pid ctx).2.agents = st.agents := rfl
  simp only [coordinate_response, hag, hlook, hfail]
  exact ⟨rfl, rfl⟩

/-- C3 witness: the amended theorem at the concrete failing-primary
scenario. -/
theorem c3_failed_primary_error_with_partial_record_witness :
    (coordinate_response clock0 st_c3 "hello" "p1" (some [("k", .vStr "v")])).1.status = "error" ∧
    (coordinate_response clock0 st_c3 "hello" "p1" (some [("k", .vStr "v")])).2.decision_history =
      st_c3.decision_history ++
        [⟨clock0.nowIso, "hello", "p1", some [("k", .vStr "v")], [], none⟩] :=
  c3_failed_primary_error_with_partial_record clock0 st_c3 "hello" "p1"
    (some [("k", .vStr "v")]) failPrimary "llm down" rfl rfl

/-! ### Claim C2: amended behaviour -/

theorem gather_error_of_failing_member
    (st : OrchState) (ui pid : String) (c : Ctx) (sid : String) (sag : Agent) (msg : String)
    (hlook : alistGet st.agents sid = some sag) (hfail : sag.process ui c = .error msg)
    (hne : sid ≠ pid) :
    ∀ (l : List Value) (acc : List (String × AgentResp)),
      Value.vStr sid ∈ l → ∃ m, gatherGo st ui pid c l acc = .error m := by
  intro l
  induction l with
  | nil => intro acc h; cases h
  | cons aid rest ih =>
      intro acc hmem
      cases aid with
      | vStr s =>
          by_cases hs : s = pid
          · have hmem2 : Value.vStr sid ∈ rest := by
              cases hmem with
              | head => exact absurd (by subst hs; rfl) hne
              | tail _ h => exact h
            obtain ⟨m, hm⟩ := ih acc hmem2
            exact ⟨m, by simp only [gatherGo, if_pos hs]; exact hm⟩
          · cases hga : alistGet st.agents s with
            | none =>
                have hmem2 : Value.vStr sid ∈ rest := by
                  cases hmem with
                  | head => rw [hlook] at hga; cases hga
                  | tail _ h => exact h
                obtain ⟨m, hm⟩ := ih acc hmem2
                exact ⟨m, by simp only [gatherGo, if_neg hs, hga]; exact hm⟩
            | some agent =>
                cases hproc : agent.process ui c with
                | error e => exact ⟨e, by simp only [gatherGo, if_neg hs, hga, hproc]⟩
                | ok resp =>
                    have hmem2 : Value.vStr sid ∈ rest := by
                      cases hmem with
                      | head =>
                          rw [hlook] at hga
                          injection hga with h2
                          rw [h2] at hfail
                          rw [hproc] at hfail
                          cases hfail
                      | tail _ h => exact h
                    obtain ⟨m, hm⟩ :=
                      ih (acc ++ [(s, ⟨resp, calculate_confidence resp⟩)]) hmem2
                    exact ⟨m, by simp only [gatherGo, if_neg hs, hga, hproc]; exact hm⟩
      | vNone =>
          have hmem2 : Value.vStr sid ∈ rest := by
            cases hmem with
            | tail _ h => exact h
          obtain ⟨m, hm⟩ := ih acc hmem2
          exact ⟨m, by simp only [gatherGo]; exact hm⟩
      | vInt n =>
          have hmem2 : Value.vStr sid ∈ rest := by
            cases hmem with
            | tail _ h => exact h
          obtain ⟨m, hm⟩ := ih acc hmem2
          exact ⟨m, by simp only [gatherGo]; exact hm⟩
      | vFrac n d =>
          have hmem2 : Value.vStr sid ∈ rest := by
            cases hmem with
            | tail _ h => exact h
          obtain ⟨m, hm⟩ := ih acc hmem2
          exact ⟨m, by simp only [gatherGo]; exact hm⟩
      | vList xs =>
          have hmem2 : Value.vStr sid ∈ rest := by
            cases hmem with
            | tail _ h => exact h
          obtain ⟨m, hm⟩ := ih acc hmem2
          exact ⟨m, by simp only [gatherGo]; exact hm⟩
      | vDict xs =>
          have hmem2 : Value.vStr sid ∈ rest := by
            cases hmem with
            | tail _ h => exact h
          obtain ⟨m, hm⟩ := ih acc hmem2
          exact ⟨m, by simp only [gatherGo]; exact hm⟩

/-- C2 (amended): a failing secondary *does* abort the cycle: whenever the
selected secondary set contains a registered worker, distinct from the
primary ID, whose `process` invocation raises on the enhanced context, the
cycle returns `status=error` (the exception is only caught at the top
level; no partial result with the surviving secondaries is returned). -/
theorem c2_secondary_failure_yields_error_status
    (clock : Clock) (st : OrchState) (ui pid : String) (ctx : Option Ctx)
    (sid : String) (sag : Agent) (msg : String)
    (hlook : alistGet st.agents sid = some sag) (hne : sid ≠ pid)
    (hmem : Value.vStr sid ∈
      identify_relevant_agents (create_decision_point clock st ui pid ctx).2
        (enhance_global_context clock (create_decision_point clock st ui pid ctx).2 ctx))
    (hfail : sag.process ui
        (enhance_global_context clock (create_decision_point clock st ui pid ctx).2 ctx) =
      .error msg) :
    (coordinate_response clock st ui pid ctx).1.status = "error" := by
  have hag : (create_decision_point clock st ui pid ctx).2.agents = st.agents := rfl
  cases hp : alistGet st.agents pid with
  | none => simp only [coordinate_response, hag, hp, CoordResult.status]
  | some primary_agent =>
      cases hpp : primary_agent.process ui
          (enhance_global_context clock (create_decision_point clock st ui pid ctx).2 ctx) with
      | error e => simp only [coordinate_response, hag, hp, hpp, CoordResult.status]
      | ok primary_response =>
          obtain ⟨m, hm⟩ :=
            gather_error_of_failing_member (create_decision_point clock st ui pid ctx).2 ui pid
              (enhance_global_context clock (create_decision_point clock st ui pid ctx).2 ctx)
              sid sag msg hlook hfail hne
              (identify_relevant_agents (create_decision_point clock st ui pid ctx).2
                (enhance_global_context clock (create_decision_point clock st ui pid ctx).2 ctx))
              [] hmem
          simp only [coordinate_response, hag, hp, hpp, gather_agent_responses, hm,
            CoordResult.status]

/-- C2 witness: the amended theorem at the concrete scenario (secondaries
`s1`, `s2` selected via a stored pattern; `s2` raises). -/
theorem c2_secondary_failure_yields_error_status_witness :
    "s2" ≠ "p" ∧
      (coordinate_response clock0 st_c2 "q" "p" (some [("k", .vStr "v")])).1.status = "error" :=
  ⟨by decide,
   c2_secondary_failure_yields_error_status clock0 st_c2 "q" "p" (some [("k", .vStr "v")])
     "s2" agS2 "s2 down" rfl (by decide) (by decide) rfl⟩

/-! ### Claim C9 -/

/-- C9: every call to `coordinate_response` appends exactly one entry to
the decision history, on both the success and the error path (including an
unregistered primary ID), because the decision point is appended before
the primary worker is resolved or invoked, and the only later write to the
decision history is the in-place outcome update of that same entry. -/
theorem c9_coordinate_always_appends_one_decision_point
    (clock : Clock) (st : OrchState) (ui pid : String) (ctx : Option Ctx) :
    ((coordinate_response clock st ui pid ctx).2).decision_history.length =
      st.decision_history.length + 1 := by
  unfold coordinate_response
  dsimp only
  split
  next r heq =>
    repeat' split at heq
    all_goals cases heq
    all_goals
      simp [record_decision_outcome, update_context_history, updateLast_length,
        create_decision_point]
  next e heq => simp [create_decision_point]

/-! ### Claim C8 -/

theorem alistGet_eq_none {κ α : Type} [DecidableEq κ] (l : List (κ × α)) (k : κ)
    (h : ∀ p ∈ l, p.1 ≠ k) : alistGet l k = none := by
  induction l with
  | nil => rfl
  | cons p rest ih =>
      obtain ⟨k0, v0⟩ := p
      have h0 : k0 ≠ k := h (k0, v0) (List.mem_cons_self _ _)
      simp only [alistGet, if_neg h0]
      exact ih fun q hq => h q (List.mem_cons_of_mem _ hq)

theorem alistGet_storeSetEntries (l : List (Nat × Ctx)) (i j : Nat) (k : String) (v : Value) :
    alistGet (storeSetEntries i k v l) j =
      if j = i then (alistGet l j).map (fun c => alistSet c k v) else alistGet l j := by
  induction l with
  | nil => by_cases h : j = i <;> simp [storeSetEntries, alistGet, h]
  | cons p rest ih =>
      obtain ⟨k0, v0⟩ := p
      simp only [storeSetEntries]
      by_cases h0 : k0 = i
      · rw [if_pos h0]
        subst h0
        by_cases hj : k0 = j
        · subst hj
          simp only [alistGet, if_pos rfl]
          rfl
        · simp only [alistGet, if_neg hj, ih]
      · rw [if_neg h0]
        by_cases hj : k0 = j
        · subst hj
          have hji : ¬ k0 = i := h0
          simp [alistGet, hji]
        · simp only [alistGet, if_neg hj, ih]

theorem storeGet_storeSetKey (s : DictStore) (i j : Nat) (k : String) (v : Value) :
    storeGet (storeSetKey s i k v) j =
      if j = i then (storeGet s j).map (fun c => alistSet c k v) else storeGet s j :=
  alistGet_storeSetEntries s.entries i j k v

/-- C8: `_enhance_global_context` returns a *new* context object and
leaves the caller's context mapping untouched: in the object-store model
the caller's dict dereferences to exactly the same mapping afterwards, the
returned object is a different one, and its contents are the pure
enhancement of the caller's mapping. -/
theorem c8_enhance_leaves_caller_context_unchanged
    (clock : Clock) (st : OrchState) (s : DictStore) (cid : Nat)
    (hwf : ∀ p ∈ s.entries, p.1 < s.next) (hcid : (storeGet s cid).isSome) :
    storeGet (enhance_global_context_alloc clock st s (some cid)).1 cid = storeGet s cid ∧
    (enhance_global_context_alloc clock st s (some cid)).2 ≠ cid ∧
    storeGet (enhance_global_context_alloc clock st s (some cid)).1
        (enhance_global_context_alloc clock st s (some cid)).2 =
      some (enhance_global_context clock st (storeGet s cid)) := by
  obtain ⟨c, hc⟩ := Option.isSome_iff_exists.mp hcid
  have hmemc : (cid, c) ∈ s.entries := alistGet_mem _ _ _ hc
  have hlt : cid < s.next := hwf _ hmemc
  have hne : cid ≠ s.next := Nat.ne_of_lt hlt
  have hfresh : alistGet s.entries s.next = none :=
    alistGet_eq_none _ _ fun p hp => Nat.ne_of_lt (hwf p hp)
  have hallocget : storeGet ⟨s.entries ++ [(s.next, if c.isEmpty then [] else c)], s.next + 1⟩
      cid = some c := alistGet_append_left _ _ _ _ hc
  have hallocnew : storeGet ⟨s.entries ++ [(s.next, if c.isEmpty then [] else c)], s.next + 1⟩
      s.next = some (if c.isEmpty then [] else c) := by
    show alistGet _ _ = _
    rw [alistGet_append_right _ _ _ hfresh]
    simp [alistGet]
  refine ⟨?_, ?_, ?_⟩
  · simp only [enhance_global_context_alloc, storeAlloc, hc]
    rw [storeGet_storeSetKey, if_neg hne, storeGet_storeSetKey, if_neg hne,
      storeGet_storeSetKey, if_neg hne]
    exact hallocget
  · simp only [enhance_global_context_alloc, storeAlloc]
    exact fun h => hne h.symm
  · simp only [enhance_global_context_alloc, storeAlloc, hc]
    rw [storeGet_storeSetKey, if_pos rfl, storeGet_storeSetKey, if_pos rfl,
      storeGet_storeSetKey, if_pos rfl, hallocnew]
    simp only [Option.map_some', enhance_global_context]

/-- C8 witness: the theorem at a one-object store holding the context
`{k: v}`. -/
theorem c8_enhance_leaves_caller_context_unchanged_witness :
    storeGet (enhance_global_context_alloc clock0 emptyState store0 (some 0)).1 0 =
        storeGet store0 0 ∧
    (enhance_global_context_alloc clock0 emptyState store0 (some 0)).2 ≠ 0 ∧
    storeGet (enhance_global_context_alloc clock0 emptyState store0 (some 0)).1
        (enhance_global_context_alloc clock0 emptyState store0 (some 0)).2 =
      some (enhance_global_context clock0 emptyState (storeGet store0 0)) :=
  c8_enhance_leaves_caller_context_unchanged clock0 emptyState store0 0 (by decide) (by decide)

/-! ### Claim C10 -/

theorem orderedInsert_decomp {α : Type} (r : α → α → Prop) [DecidableRel r] (x : α)
    (M : List α) :
    ∃ M1 M2, List.orderedInsert r x M = M1 ++ x :: M2 ∧ M = M1 ++ M2 := by
  induction M with
  | nil => exact ⟨[], [], rfl, rfl⟩
  | cons b M ih =>
      by_cases h : r x b
      · exact ⟨[], b :: M, by simp [List.orderedInsert, h], rfl⟩
      · obtain ⟨M1, M2, h1, h2⟩ := ih
        exact ⟨b :: M1, M2, by simp [List.orderedInsert, h, h1], by simp [h2]⟩

theorem orderedInsert_middle {α : Type} (r : α → α → Prop) [DecidableRel r] [IsTrans α r]
    (c e : α) :
    ∀ (M1 M2 : List α), List.Sorted r (M1 ++ e :: M2) →
      ∃ N1 N2, List.orderedInsert r c (M1 ++ e :: M2) = N1 ++ e :: N2 ∧
        List.orderedInsert r c (M1 ++ M2) = N1 ++ N2 := by
  intro M1
  induction M1 with
  | nil =>
      intro M2 hs
      by_cases h : r c e
      · refine ⟨[c], M2, by simp [List.orderedInsert, h], ?_⟩
        cases M2 with
        | nil => simp [List.orderedInsert]
        | cons b M2' =>
            have hre : r e b := (List.sorted_cons.mp hs).1 b (List.mem_cons_self _ _)
            have hcb : r c b := Trans.trans h hre
            simp [List.orderedInsert, hcb]
      · exact ⟨[], List.orderedInsert r c M2, by simp [List.orderedInsert, h], rfl⟩
  | cons b M1' ih =>
      intro M2 hs
      have hs' : List.Sorted r (M1' ++ e :: M2) := (List.sorted_cons.mp (by simpa using hs)).2
      by_cases h : r c b
      · exact ⟨c :: b :: M1', M2, by simp [List.orderedInsert, h],
          by simp [List.orderedInsert, h]⟩
      · obtain ⟨N1, N2, h1, h2⟩ := ih M2 hs'
        exact ⟨b :: N1, N2, by simp [List.orderedInsert, h, h1],
          by simp [List.orderedInsert, h, h2]⟩

theorem insertionSort_erase_middle {α : Type} (r : α → α → Prop) [DecidableRel r] [IsTrans α r]
    [IsTotal α r] (e : α) :
    ∀ (l1 l2 : List α), ∃ M1 M2,
      List.insertionSort r (l1 ++ e :: l2) = M1 ++ e :: M2 ∧
      List.insertionSort r (l1 ++ l2) = M1 ++ M2 := by
  intro l1
  induction l1 with
  | nil =>
      intro l2
      obtain ⟨M1, M2, h1, h2⟩ := orderedInsert_decomp r e (List.insertionSort r l2)
      exact ⟨M1, M2, by simpa [List.insertionSort] using h1, by simpa using h2⟩
  | cons c l1' ih =>
      intro l2
      obtain ⟨M1, M2, h1, h2⟩ := ih l2
      have hsorted : List.Sorted r (M1 ++ e :: M2) := by
        rw [← h1]
        exact List.sorted_insertionSort r _
      obtain ⟨N1, N2, g1, g2⟩ := orderedInsert_middle r c e M1 M2 hsorted
      refine ⟨N1, N2, ?_, ?_⟩
      · rw [List.cons_append]
        simp only [List.insertionSort]
        rw [h1, g1]
      · rw [List.cons_append]
        simp only [List.insertionSort]
        rw [h2, g2]

theorem integrateGo_skip (st : OrchState) (aid : String) (ag : Agent) (d : AgentResp)
    (hlook : alistGet st.agents aid = some ag)
    (hth : ¬ (ag.confidence_threshold ≤ d.confidence)) :
    ∀ (l1 l2 : List (String × AgentResp)) (acc : String),
      integrateGo st acc (l1 ++ (aid, d) :: l2) = integrateGo st acc (l1 ++ l2) := by
  intro l1
  induction l1 with
  | nil =>
      intro l2 acc
      simp only [List.nil_append, integrateGo, hlook, if_neg hth]
  | cons p l1' ih =>
      intro l2 acc
      obtain ⟨a0, d0⟩ := p
      simp only [List.cons_append, integrateGo]
      cases h0 : alistGet st.agents a0 with
      | none => rfl
      | some ag0 => exact ih l2 _

/-- C10: the confidence of the empty response string is exactly 0 (in
tenths) and not the base 0.5; consequently it fails every strictly
positive confidence threshold, and an empty secondary response entry
(whose gathered confidence is by construction `calculate_confidence ""`)
contributes nothing to the integrated response: removing it from the
related-response map leaves `_integrate_responses` unchanged, provided its
agent is registered with a positive threshold. -/
theorem c10_empty_secondary_response_never_merged :
    calculate_confidence "" = 0 ∧
    (∀ th : Int, 0 < th → ¬ (th ≤ calculate_confidence "")) ∧
    (∀ (st : OrchState) (primary : String) (l1 l2 : List (String × AgentResp)) (aid : String)
        (ag : Agent), alistGet st.agents aid = some ag → 0 < ag.confidence_threshold →
      integrate_responses st primary
          (l1 ++ (aid, ⟨"", calculate_confidence ""⟩) :: l2) =
        integrate_responses st primary (l1 ++ l2)) := by
  have hzero : calculate_confidence "" = 0 := by decide
  refine ⟨hzero, ?_, ?_⟩
  · intro th hth hle
    rw [hzero] at hle
    omega
  · intro st primary l1 l2 aid ag hlook hth
    unfold integrate_responses
    obtain ⟨M1, M2, h1, h2⟩ :=
      insertionSort_erase_middle rRespConf ((aid, ⟨"", calculate_confidence ""⟩)) l1 l2
    rw [h1, h2]
    refine integrateGo_skip st aid ag ⟨"", calculate_confidence ""⟩ hlook ?_ M1 M2 primary
    show ¬ (ag.confidence_threshold ≤ calculate_confidence "")
    rw [hzero]
    omega

/-- C10 witness: the theorem's parts at concrete inputs (threshold 7 of
agent `p`; one surviving related response). -/
theorem c10_empty_secondary_response_never_merged_witness :
    calculate_confidence "" = 0 ∧ ¬ ((7 : Int) ≤ calculate_confidence "") ∧
    integrate_responses st_c2 "base"
        ([("s1", ⟨"fine", calculate_confidence "fine"⟩)] ++
          ("p", ⟨"", calculate_confidence ""⟩) :: []) =
      integrate_responses st_c2 "base" ([("s1", ⟨"fine", calculate_confidence "fine"⟩)] ++ []) :=
  ⟨c10_empty_secondary_response_never_merged.1,
   c10_empty_secondary_response_never_merged.2.1 7 (by decide),
   c10_empty_secondary_response_never_merged.2.2 st_c2 "base"
     [("s1", ⟨"fine", calculate_confidence "fine"⟩)] [] "p" agP rfl (by decide)⟩

/-! ### Claim C6 -/

theorem topicFreqs_eq_streamFold (history : List HistRecord) :
    topicFreqs history = (topicStream history).foldl bumpTopic [] := by
  suffices h : ∀ (hs : List HistRecord) (acc : List (Value × Nat)),
      hs.foldl (fun acc r => r.topics.foldl bumpTopic acc) acc =
        (topicStream hs).foldl bumpTopic acc from h history []
  intro hs
  induction hs with
  | nil => intro acc; rfl
  | cons r rest ih =>
      intro acc
      simp only [List.foldl_cons, topicStream, List.foldr_cons, List.foldl_append, ih]

theorem firstIdx_append_left (pre rest : List Value) (t : Value) (h : t ∈ pre) :
    firstIdx (pre ++ rest) t = firstIdx pre t := by
  induction pre with
  | nil => cases h
  | cons x pre ih =>
      by_cases hx : x = t
      · simp [firstIdx, hx]
      · have hm : t ∈ pre := by
          cases h with
          | head => exact absurd rfl hx
          | tail _ h => exact h
        simp [firstIdx, hx, ih hm]

theorem firstIdx_append_fresh (pre rest : List Value) (t : Value) (h : t ∉ pre) :
    firstIdx (pre ++ t :: rest) t = pre.length := by
  induction pre with
  | nil => simp [firstIdx]
  | cons x pre ih =>
      have hx : ¬ x = t := fun he => h (he ▸ List.mem_cons_self _ _)
      have hpre : t ∉ pre := fun hm => h (List.mem_cons_of_mem _ hm)
      simp [firstIdx, hx, ih hpre]

theorem firstIdx_lt_length (pre : List Value) (t : Value) (h : t ∈ pre) :
    firstIdx pre t < pre.length := by
  induction pre with
  | nil => cases h
  | cons x pre ih =>
      by_cases hx : x = t
      · simp [firstIdx, hx]
      · have hm : t ∈ pre := by
          cases h with
          | head => exact absurd rfl hx
          | tail _ h => exact h
        simp only [firstIdx, if_neg hx, List.length_cons]
        exact Nat.succ_lt_succ (ih hm)

theorem mem_alistSet_of_get_some {κ α : Type} [DecidableEq κ] (l : List (κ × α)) (k : κ)
    (w v : α) (hget : alistGet l k = some w) (hnd : (l.map Prod.fst).Nodup) :
    ∀ p ∈ alistSet l k v, p = (k, v) ∨ (p ∈ l ∧ p.1 ≠ k) := by
  induction l with
  | nil => simp [alistGet] at hget
  | cons q rest ih =>
      obtain ⟨k0, v0⟩ := q
      intro p hp
      by_cases h0 : k0 = k
      · subst h0
        simp only [alistSet, if_pos rfl] at hp
        cases hp with
        | head => exact Or.inl rfl
        | tail _ hmem =>
            refine Or.inr ⟨List.mem_cons_of_mem _ hmem, fun hk => ?_⟩
            have : p.1 ∈ rest.map Prod.fst := List.mem_map_of_mem Prod.fst hmem
            rw [hk] at this
            exact (List.nodup_cons.mp (by simpa using hnd)).1 this
      · simp only [alistGet, if_neg h0] at hget
        simp only [alistSet, if_neg h0] at hp
        cases hp with
        | head => exact Or.inr ⟨List.mem_cons_self _ _, h0⟩
        | tail _ hmem =>
            rcases ih hget (List.nodup_cons.mp (by simpa using hnd)).2 p hmem with h | ⟨h1, h2⟩
            · exact Or.inl h
            · exact Or.inr ⟨List.mem_cons_of_mem _ h1, h2⟩

theorem alistGet_ne_none_of_mem_keys {κ α : Type} [DecidableEq κ] (l : List (κ × α)) (k : κ)
    (h : k ∈ l.map Prod.fst) : alistGet l k ≠ none := by
  induction l with
  | nil => cases h
  | cons q rest ih =>
      obtain ⟨k0, v0⟩ := q
      by_cases hk : k0 = k
      · simp [alistGet, hk]
      · have hm : k ∈ rest.map Prod.fst := by
          cases h with
          | head => exact absurd rfl hk
          | tail _ hh => exact hh
        simp only [alistGet, if_neg hk]
        exact ih hm

theorem topicFold_inv (S : List Value) :
    ∀ (suffix pre : List Value) (acc : List (Value × Nat)),
      S = pre ++ suffix →
      (∀ p ∈ acc, p.2 = pre.count p.1) →
      (∀ t : Value, t ∈ acc.map Prod.fst ↔ t ∈ pre) →
      (acc.map Prod.fst).Nodup →
      List.Pairwise (fun a b => firstIdx S a < firstIdx S b) (acc.map Prod.fst) →
      (∀ p ∈ suffix.foldl bumpTopic acc, p.2 = S.count p.1) ∧
      (∀ t : Value, t ∈ (suffix.foldl bumpTopic acc).map Prod.fst ↔ t ∈ S) ∧
      ((suffix.foldl bumpTopic acc).map Prod.fst).Nodup ∧
      List.Pairwise (fun a b => firstIdx S a < firstIdx S b)
        ((suffix.foldl bumpTopic acc).map Prod.fst) := by
  intro suffix
  induction suffix with
  | nil =>
      intro pre acc hS hcount hkeys hnd hord
      rw [List.append_nil] at hS
      subst hS
      exact ⟨hcount, hkeys, hnd, hord⟩
  | cons t rest ih =>
      intro pre acc hS hcount hkeys hnd hord
      have hS' : S = (pre ++ [t]) ++ rest := by
        rw [hS, List.append_assoc]
        rfl
      simp only [List.foldl_cons, bumpTopic]
      cases hget : alistGet acc t with
      | some n =>
          have htacc : t ∈ acc.map Prod.fst :=
            List.mem_map_of_mem Prod.fst (alistGet_mem _ _ _ hget)
          have htpre : t ∈ pre := (hkeys t).mp htacc
          have hn : n = pre.count t := hcount _ (alistGet_mem _ _ _ hget)
          have hkeq : (alistSet acc t ((some n).getD 0 + 1)).map Prod.fst =
              acc.map Prod.fst := alistSet_keys_of_get_some _ _ _ _ hget
          refine ih (pre ++ [t]) _ hS' ?_ ?_ ?_ ?_
          · intro p hp
            rcases mem_alistSet_of_get_some acc t n _ hget hnd p hp with h | ⟨h1, h2⟩
            · subst h
              simp only [Option.getD_some]
              rw [hn]
              simp [List.count_append, List.count_cons]
            · rw [hcount p h1]
              simp [List.count_append, List.count_cons, h2]
          · intro t'
            rw [hkeq, hkeys t', List.mem_append, List.mem_singleton]
            constructor
            · exact fun h => Or.inl h
            · rintro (h | h)
              · exact h
              · rw [h]; exact htpre
          · rw [hkeq]; exact hnd
          · rw [hkeq]; exact hord
      | none =>
          have htacc : t ∉ acc.map Prod.fst :=
            fun hmem => alistGet_ne_none_of_mem_keys acc t hmem hget
          have htpre : t ∉ pre := fun h => htacc ((hkeys t).mpr h)
          have hset : alistSet acc t ((Option.getD none 0) + 1) = acc ++ [(t, 1)] :=
            alistSet_of_get_none _ _ _ hget
          rw [hset]
          refine ih (pre ++ [t]) _ hS' ?_ ?_ ?_ ?_
          · intro p hp
            rcases List.mem_append.mp hp with h | h
            · have hne : p.1 ≠ t := by
                intro he
                exact htacc (he ▸ List.mem_map_of_mem Prod.fst h)
              rw [hcount p h]
              simp [List.count_append, List.count_cons, hne]
            · rw [List.mem_singleton] at h
              subst h
              have : pre.count t = 0 := List.count_eq_zero.mpr htpre
              simp [List.count_append, List.count_cons, this]
          · intro t'
            simp only [List.map_append, List.map_cons, List.map_nil, List.mem_append,
              List.mem_singleton, hkeys t']
          · simp only [List.map_append, List.map_cons, List.map_nil]
            rw [List.nodup_append]
            exact ⟨hnd, List.nodup_singleton _, by simpa using htacc⟩
          · simp only [List.map_append, List.map_cons, List.map_nil]
            rw [List.pairwise_append]
            refine ⟨hord, List.pairwise_singleton _ _, ?_⟩
            intro a ha b hb
            rw [List.mem_singleton] at hb
            rw [hb]
            have hapre : a ∈ pre := (hkeys a).mp ha
            have h1 : firstIdx S a = firstIdx pre a := by
              rw [hS]
              exact firstIdx_append_left pre _ a hapre
            have h2 : firstIdx S t = pre.length := by
              rw [hS]
              exact firstIdx_append_fresh pre _ t htpre
            rw [h1, h2]
            exact firstIdx_lt_length pre a hapre

/-- The strict order the digest realises on the frequency entries:
strictly more frequent, or equally frequent and first seen earlier. -/
def entOrd (S : List Value) (p q : Value × Nat) : Prop :=
  q.2 < p.2 ∨ (p.2 = q.2 ∧ firstIdx S p.1 < firstIdx S q.1)

theorem orderedInsert_pairwise_ent (S : List Value) (x : Value × Nat) :
    ∀ (M : List (Value × Nat)), List.Pairwise (entOrd S) M →
      (∀ y ∈ M, firstIdx S x.1 < firstIdx S y.1) →
      List.Pairwise (entOrd S) (List.orderedInsert rTopicCount x M) := by
  intro M
  induction M with
  | nil => intro _ _; simp [List.orderedInsert]
  | cons b M' ih =>
      intro hpw hx
      obtain ⟨hb, hM'⟩ := List.pairwise_cons.mp hpw
      by_cases h : rTopicCount x b
      · simp only [List.orderedInsert, if_pos h]
        refine List.Pairwise.cons ?_ hpw
        intro y hy
        have hyx2 : y.2 ≤ x.2 := by
          cases hy with
          | head => exact h
          | tail _ hmem =>
              rcases hb y hmem with h1 | ⟨h1, _⟩
              · exact Nat.le_trans (Nat.le_of_lt h1) h
              · exact h1 ▸ h
        rcases Nat.lt_or_ge y.2 x.2 with hlt | hge
        · exact Or.inl hlt
        · have heq : x.2 = y.2 := Nat.le_antisymm hge hyx2
          exact Or.inr ⟨heq, hx y hy⟩
      · simp only [List.orderedInsert, if_neg h]
        refine List.Pairwise.cons ?_ (ih hM' fun y hy => hx y (List.mem_cons_of_mem _ hy))
        intro y hy
        rcases (List.mem_orderedInsert rTopicCount).mp hy with he | hmem
        · subst he
          exact Or.inl (Nat.lt_of_not_le h)
        · exact hb y hmem

theorem insertionSort_pairwise_ent (S : List Value) :
    ∀ (l : List (Value × Nat)),
      List.Pairwise (fun a b : Value × Nat => firstIdx S a.1 < firstIdx S b.1) l →
      List.Pairwise (entOrd S) (List.insertionSort rTopicCount l) := by
  intro l
  induction l with
  | nil => intro _; simp [List.insertionSort]
  | cons x l' ih =>
      intro hpw
      obtain ⟨hx, hl'⟩ := List.pairwise_cons.mp hpw
      simp only [List.insertionSort]
      refine orderedInsert_pairwise_ent S x _ (ih hl') ?_
      intro y hy
      exact hx y ((List.perm_insertionSort rTopicCount l').mem_iff.mp hy)

/-- C6: the pattern digest `_identify_common_topics` computes over a
history lists at most 5 topic keys; they are distinct topics of the
recorded stream, ordered by strictly descending frequency with ties broken
by first-seen order; a topic of the stream is left out only when the
digest is full with 5 topics that all rank strictly before it; and this
digest is exactly what `_analyze_global_patterns` binds under
`common_topics` during context enhancement (absent only for an empty
history). -/
theorem c6_pattern_digest_top5 (history : List HistRecord) :
    (identify_common_topics history).length ≤ 5 ∧
    (identify_common_topics history).Nodup ∧
    (∀ t ∈ identify_common_topics history, t ∈ topicStream history) ∧
    List.Pairwise (topicBefore (topicStream history)) (identify_common_topics history) ∧
    (∀ t' ∈ topicStream history, t' ∉ identify_common_topics history →
      (identify_common_topics history).length = 5 ∧
      ∀ t ∈ identify_common_topics history, topicBefore (topicStream history) t t') ∧
    (∀ (clock : Clock) (st : OrchState),
      alistGet (analyze_global_patterns clock st) "common_topics" =
        if st.context_history.isEmpty then none
        else some (.vList (identify_common_topics st.context_history))) := by
  have hlink : ∀ (clock : Clock) (st : OrchState),
      alistGet (analyze_global_patterns clock st) "common_topics" =
        if st.context_history.isEmpty then none
        else some (.vList (identify_common_topics st.context_history)) := by
    intro clock st
    by_cases h : st.context_history.isEmpty <;> simp [analyze_global_patterns, h, alistGet]
  by_cases hemp : history.isEmpty
  · have hd0 : identify_common_topics history = [] := by
      simp [identify_common_topics, hemp]
    have hs0 : topicStream history = [] := by
      cases history with
      | nil => rfl
      | cons a b => simp at hemp
    rw [hd0]
    refine ⟨by simp, List.nodup_nil, by simp, List.Pairwise.nil, ?_, hlink⟩
    intro t' ht' _
    rw [hs0] at ht'
    cases ht'
  · obtain ⟨hcount, hkeys, hnd, hord⟩ :
        (∀ p ∈ topicFreqs history, p.2 = (topicStream history).count p.1) ∧
        (∀ t : Value, t ∈ (topicFreqs history).map Prod.fst ↔ t ∈ topicStream history) ∧
        ((topicFreqs history).map Prod.fst).Nodup ∧
        List.Pairwise
          (fun a b => firstIdx (topicStream history) a < firstIdx (topicStream history) b)
          ((topicFreqs history).map Prod.fst) := by
      have h := topicFold_inv (topicStream history) (topicStream history) [] []
        (by simp) (by intro p hp; cases hp) (by simp) (by simp) (by simp)
      rw [← topicFreqs_eq_streamFold history] at h
      exact h
    have hperm : List.Perm (List.insertionSort rTopicCount (topicFreqs history))
        (topicFreqs history) :=
      List.perm_insertionSort _ _
    have hent : List.Pairwise (entOrd (topicStream history))
        (List.insertionSort rTopicCount (topicFreqs history)) :=
      insertionSort_pairwise_ent _ _
        (List.Pairwise.of_map Prod.fst (fun _ _ h => h) hord)
    have hcnt : ∀ p ∈ List.insertionSort rTopicCount (topicFreqs history),
        p.2 = (topicStream history).count p.1 :=
      fun p hp => hcount p (hperm.mem_iff.mp hp)
    have hd : identify_common_topics history =
        ((List.insertionSort rTopicCount (topicFreqs history)).map Prod.fst).take 5 := by
      simp [identify_common_topics, hemp]
    have hndmap : ((List.insertionSort rTopicCount (topicFreqs history)).map Prod.fst).Nodup :=
      (hperm.map Prod.fst).nodup_iff.mpr hnd
    have hpwtop : List.Pairwise (topicBefore (topicStream history))
        ((List.insertionSort rTopicCount (topicFreqs history)).map Prod.fst) := by
      refine List.Pairwise.map Prod.fst (fun _ _ h => h) (hent.imp_of_mem ?_)
      intro p q hp hq hpq
      have hpc := hcnt p hp
      have hqc := hcnt q hq
      simp only [topicBefore]
      rcases hpq with h | ⟨h1, h2⟩
      · exact Or.inl (by rw [← hpc, ← hqc]; exact h)
      · exact Or.inr ⟨by rw [← hpc, ← hqc]; exact h1, h2⟩
    rw [hd]
    refine ⟨?_, ?_, ?_, ?_, ?_, hlink⟩
    · rw [List.length_take]
      exact Nat.min_le_left _ _
    · exact hndmap.sublist (List.take_sublist _ _)
    · intro t ht
      have h1 : t ∈ (List.insertionSort rTopicCount (topicFreqs history)).map Prod.fst :=
        (List.take_sublist 5 _).subset ht
      obtain ⟨p, hp, hpfst⟩ := List.mem_map.mp h1
      have hptf : p ∈ topicFreqs history := hperm.mem_iff.mp hp
      have : t ∈ (topicFreqs history).map Prod.fst :=
        hpfst ▸ List.mem_map_of_mem Prod.fst hptf
      exact (hkeys t).mp this
    · exact hpwtop.sublist (List.take_sublist _ _)
    · intro t' ht'S ht'd
      have ht'tf : t' ∈ (topicFreqs history).map Prod.fst := (hkeys t').mpr ht'S
      obtain ⟨p', hp'tf, hp'fst⟩ := List.mem_map.mp ht'tf
      have hp'sorted : p' ∈ List.insertionSort rTopicCount (topicFreqs history) :=
        hperm.mem_iff.mpr hp'tf
      have hsplit := List.take_append_drop 5 (List.insertionSort rTopicCount (topicFreqs history))
      have hp'app : p' ∈ (List.insertionSort rTopicCount (topicFreqs history)).take 5 ++
          (List.insertionSort rTopicCount (topicFreqs history)).drop 5 := by
        rw [hsplit]
        exact hp'sorted
      have hp'drop : p' ∈ (List.insertionSort rTopicCount (topicFreqs history)).drop 5 := by
        rcases List.mem_append.mp hp'app with h | h
        · exfalso
          apply ht'd
          have hmem : t' ∈ ((List.insertionSort rTopicCount (topicFreqs history)).take 5).map
              Prod.fst := hp'fst ▸ List.mem_map_of_mem Prod.fst h
          rw [List.map_take] at hmem
          exact hmem
        · exact h
      have hlen5 : 5 < (List.insertionSort rTopicCount (topicFreqs history)).length := by
        by_contra hle
        push_neg at hle
        have hnil : (List.insertionSort rTopicCount (topicFreqs history)).drop 5 = [] :=
          List.drop_eq_nil_of_le hle
        rw [hnil] at hp'drop
        cases hp'drop
      have hent2 : List.Pairwise (entOrd (topicStream history))
          ((List.insertionSort rTopicCount (topicFreqs history)).take 5 ++
            (List.insertionSort rTopicCount (topicFreqs history)).drop 5) := by
        rw [hsplit]
        exact hent
      refine ⟨?_, ?_⟩
      · rw [List.length_take, List.length_map]
        omega
      · intro t htd
        have h1 : t ∈ ((List.insertionSort rTopicCount (topicFreqs history)).take 5).map
            Prod.fst := by
          rw [List.map_take]
          exact htd
        obtain ⟨p, hptake, hpfst⟩ := List.mem_map.mp h1
        have hcross := (List.pairwise_append.mp hent2).2.2 p hptake p' hp'drop
        have hpsorted : p ∈ List.insertionSort rTopicCount (topicFreqs history) :=
          (List.take_sublist 5 _).subset hptake
        have hpc := hcnt p hpsorted
        have hp'c := hcnt p' hp'sorted
        simp only [topicBefore]
        rcases hcross with h | ⟨h1e, h2⟩
        · exact Or.inl (by rw [← hpfst, ← hp'fst, ← hpc, ← hp'c]; exact h)
        · exact Or.inr ⟨by rw [← hpfst, ← hp'fst, ← hpc, ← hp'c]; exact h1e,
            by rw [← hpfst, ← hp'fst]; exact h2⟩

/-- C6 witness: the theorem at a concrete two-record history (topics
`a, b, a` then `c, b`: counts a=2, b=2, c=1; digest `[a, b, c]`). -/
theorem c6_pattern_digest_top5_witness :
    identify_common_topics
        [⟨"t1", [], "r1", [.vStr "a", .vStr "b", .vStr "a"]⟩,
         ⟨"t2", [], "r2", [.vStr "c", .vStr "b"]⟩] =
      [.vStr "a", .vStr "b", .vStr "c"] ∧
    ((identify_common_topics
        [⟨"t1", [], "r1", [.vStr "a", .vStr "b", .vStr "a"]⟩,
         ⟨"t2", [], "r2", [.vStr "c", .vStr "b"]⟩]).length ≤ 5 ∧
      (identify_common_topics
        [⟨"t1", [], "r1", [.vStr "a", .vStr "b", .vStr "a"]⟩,
         ⟨"t2", [], "r2", [.vStr "c", .vStr "b"]⟩]).Nodup ∧
      (∀ t ∈ identify_common_topics
        [⟨"t1", [], "r1", [.vStr "a", .vStr "b", .vStr "a"]⟩,
         ⟨"t2", [], "r2", [.vStr "c", .vStr "b"]⟩],
        t ∈ topicStream
          [⟨"t1", [], "r1", [.vStr "a", .vStr "b", .vStr "a"]⟩,
           ⟨"t2", [], "r2", [.vStr "c", .vStr "b"]⟩]) ∧
      List.Pairwise
        (topicBefore (topicStream
          [⟨"t1", [], "r1", [.vStr "a", .vStr "b", .vStr "a"]⟩,
           ⟨"t2", [], "r2", [.vStr "c", .vStr "b"]⟩]))
        (identify_common_topics
          [⟨"t1", [], "r1", [.vStr "a", .vStr "b", .vStr "a"]⟩,
           ⟨"t2", [], "r2", [.vStr "c", .vStr "b"]⟩]) ∧
      (∀ t' ∈ topicStream
          [⟨"t1", [], "r1", [.vStr "a", .vStr "b", .vStr "a"]⟩,
           ⟨"t2", [], "r2", [.vStr "c", .vStr "b"]⟩],
        t' ∉ identify_common_topics
          [⟨"t1", [], "r1", [.vStr "a", .vStr "b", .vStr "a"]⟩,
           ⟨"t2", [], "r2", [.vStr "c", .vStr "b"]⟩] →
        (identify_common_topics
          [⟨"t1", [], "r1", [.vStr "a", .vStr "b", .vStr "a"]⟩,
           ⟨"t2", [], "r2", [.vStr "c", .vStr "b"]⟩]).length = 5 ∧
        ∀ t ∈ identify_common_topics
          [⟨"t1", [], "r1", [.vStr "a", .vStr "b", .vStr "a"]⟩,
           ⟨"t2", [], "r2", [.vStr "c", .vStr "b"]⟩],
          topicBefore (topicStream
            [⟨"t1", [], "r1", [.vStr "a", .vStr "b", .vStr "a"]⟩,
             ⟨"t2", [], "r2", [.vStr "c", .vStr "b"]⟩]) t t') ∧
      (∀ (clock : Clock) (st : OrchState),
        alistGet (analyze_global_patterns clock st) "common_topics" =
          if st.context_history.isEmpty then none
          else some (.vList (identify_common_topics st.context_history)))) :=
  ⟨by decide,
   c6_pattern_digest_top5
     [⟨"t1", [], "r1", [.vStr "a", .vStr "b", .vStr "a"]⟩,
      ⟨"t2", [], "r2", [.vStr "c", .vStr "b"]⟩]⟩
